import Mathlib

/-!
# Smartbus frame transport (`smartbus/frame.go`)

A shallow embedding of the frame level of the Smartbus driver: the sync
scanner `ReadSync`, the frame reader `ReadSmartbusFrame`, the inbound loop
`ReadSmartbusRaw` with its caller `ReadSmartbus`, the decoder `ParseFrame` and
the writers `WriteFrameRaw`, `WriteFrame` and `WritePreBuiltFrame`.

Modelling conventions.

* A Go `uint8` is `Fin 256`, a `uint16` is `Fin 65536`; conversions that
  truncate in Go (`uint8(len(bs))`) reduce modulo the width explicitly.
* An `io.Reader` is the finite list of events its successive `Read` calls
  deliver: a byte, or an error. A read from the exhausted list gives
  `io.EOF`. `isTimeout` holds for the `timeout` error only.
* A `MutexLike` is the log of the `Lock` and `Unlock` calls it received,
  oldest first.
* An `io.Writer` is the log of the byte slices passed to `Write`.
* A channel is the log of the values sent on it; a panic is the result
  `error` (writers) or `none` (`ParseFrame`).
* `crc16`, the `Message` interfaces, `WriteMessage` and the table
  `recognizedMessages` live in other files of the package and are
  parameters here.
* `wbgo.Debug` output is not modelled; the `wbgo.Error` line that
  `ReadSmartbusFrame` prints on each rejecting path is kept as a tag.
-/

namespace Smartbus

/-! ## Machine integers -/

/-- Go `uint8`. -/
abbrev Byte := Fin 256

/-- Go `uint16`. -/
abbrev U16 := Fin 65536

/-- The conversion `uint8(n)`. -/
def u8 (n : Nat) : Byte := ⟨n % 256, Nat.mod_lt n (by decide)⟩

/-- The conversion `uint16(n)`. -/
def u16 (n : Nat) : U16 := ⟨n % 65536, Nat.mod_lt n (by decide)⟩

/-- The two bytes `binary.Write(buf, binary.BigEndian, v)` appends for a `uint16`. -/
def putU16 (v : U16) : List Byte := [u8 (v.val / 256), u8 v.val]

/-- The function `binary.BigEndian.Uint16(b)`: `uint16(b[1]) | uint16(b[0])<<8`. Go panics on a
slice shorter than two bytes; every call below passes exactly two, and the
value on a shorter list is immaterial. -/
def Uint16 : List Byte → U16
  | a :: b :: _ => u16 (a.val * 256 + b.val)
  | _ => 0

/-- The constant `MIN_FRAME_SIZE`, "excluding sync". -/
def MIN_FRAME_SIZE : Nat := 11

/-! ## Data model -/

/-- The struct `MessageHeader`. -/
structure MessageHeader where
  OrigSubnetID : Byte
  OrigDeviceID : Byte
  OrigDeviceType : U16
  Opcode : U16
  TargetSubnetID : Byte
  TargetDeviceID : Byte
  deriving DecidableEq, Repr

/-- The eight bytes `binary.Write(buf, binary.BigEndian, header)` appends. -/
def MessageHeader.toBytes (h : MessageHeader) : List Byte :=
  [h.OrigSubnetID, h.OrigDeviceID] ++ putU16 h.OrigDeviceType ++ putU16 h.Opcode
    ++ [h.TargetSubnetID, h.TargetDeviceID]

/-- The struct `SmartbusMessage`; `Obj` stands for the values of `interface{}`. -/
structure SmartbusMessage (Obj : Type) where
  Header : MessageHeader
  Message : Obj

/-- Errors a stream read can return. -/
inductive ReadErr where
  | EOF
  | ErrUnexpectedEOF
  | ErrClosedPipe
  | timeout
  | other (code : Nat)
  deriving DecidableEq, Repr

/-- The helper `isTimeout(stream, err)`. -/
def isTimeout : ReadErr → Bool
  | .timeout => true
  | _ => false

/-- One thing a reader delivers. -/
inductive Ev where
  | byte (b : Byte)
  | err (e : ReadErr)
  deriving DecidableEq, Repr

/-- A reader: what its successive reads deliver; exhausted means `io.EOF`. -/
abbrev Stream := List Ev

/-- A call received by a `MutexLike`. -/
inductive MutexOp where
  | Lock
  | Unlock
  deriving DecidableEq, Repr

/-- A `MutexLike`: its call log, oldest first. -/
abbrev Mutex := List MutexOp

/-- An `io.Writer`: the slices passed to its `Write`, oldest first. -/
abbrev Writer := List (List Byte)

/-- The `wbgo.Error` line printed by `ReadSmartbusFrame` on a rejecting path. -/
inductive FrameDiag where
  | timedOutLength
  | errorLength
  | tooShort
  | timedOutBody
  | errorBody
  | badCrc
  deriving DecidableEq, Repr

/-- What `ReadSmartbusFrame` returns, with the stream left behind. -/
structure FrameResult where
  frame : Option (List Byte)
  cont : Bool
  diag : Option FrameDiag
  rest : Stream
  deriving DecidableEq, Repr

/-- What is left when `ReadSmartbusRaw` exits: the variable `err`, the state the
`frameHandler` calls built up, the mutex and the stream. -/
structure RawResult (σ : Type) where
  err : Option ReadErr
  handler : σ
  mutex : Mutex
  rest : Stream

/-- Why `WriteFrame` aborted. -/
inductive Panic where
  | typeAssertion
  | writeMessageFailed (err : String)
  deriving DecidableEq, Repr

/-- Errors `ParseFrame` returns. -/
inductive ParseError where
  | header (e : ReadErr)
  | opcodeNotRecognized (opcode : U16)
  | payload (err : String)
  deriving DecidableEq, Repr

/-- The parts of the package outside `frame.go` that the writers and the
decoder call: the `Message` interface (`isMessage` is the dynamic check of
`.(Message)`), the optional `PreprocessedMessage` interface (`ToRaw` is `none`
for a value that does not implement it), `WriteMessage`, and the table
`recognizedMessages`. -/
structure Messages (Obj : Type) where
  isMessage : Obj → Bool
  Opcode : Obj → U16
  ToRaw : Obj → Option (Except String Obj)
  WriteMessage : Obj → Except String (List Byte)
  recognizedMessages : U16 → Option (List Byte → Except String Obj)

/-! ## Reading primitives -/

/-- The call `binary.Read(reader, binary.BigEndian, &b)` for a single byte. -/
def readByte : Stream → Except ReadErr Byte × Stream
  | [] => (.error .EOF, [])
  | .byte b :: r => (.ok b, r)
  | .err e :: r => (.error e, r)

/-- The loop of `io.ReadFull` for `n` more bytes when `got` bytes are already in the
buffer: an `io.EOF` after at least one byte becomes `io.ErrUnexpectedEOF`. -/
def readFullFrom (got : Nat) : Nat → Stream → Except ReadErr (List Byte) × Stream
  | 0, s => (.ok [], s)
  | _ + 1, [] => (.error (if got = 0 then .EOF else .ErrUnexpectedEOF), [])
  | _ + 1, .err e :: r =>
    (.error (if e = .EOF ∧ got ≠ 0 then .ErrUnexpectedEOF else e), r)
  | k + 1, .byte b :: r =>
    match readFullFrom (got + 1) k r with
    | (.ok bs, r2) => (.ok (b :: bs), r2)
    | (.error e, r2) => (.error e, r2)

/-- The call `io.ReadFull(reader, buf)` with `len(buf) = n`. -/
def readFull (n : Nat) (s : Stream) : Except ReadErr (List Byte) × Stream :=
  readFullFrom 0 n s

/-- The call `binary.Read(buf, binary.BigEndian, &header)` on a `bytes.Buffer`. -/
def readHeader : List Byte → Except ReadErr (MessageHeader × List Byte)
  | a :: b :: c :: d :: e :: f :: g :: h :: rest =>
    .ok (⟨a, b, Uint16 [c, d], Uint16 [e, f], g, h⟩, rest)
  | [] => .error .EOF
  | _ => .error .ErrUnexpectedEOF

/-! ## Writers -/

/-- The function `WritePreBuiltFrame`. -/
def WritePreBuiltFrame (writer : Writer) (frame : List Byte) : Writer :=
  writer ++ [[0xaa, 0xaa] ++ frame]

/-- The function `WriteFrameRaw`. The callback `writeMsg` appends to the buffer; it is given
by the bytes it appends, or by the panic it raises. -/
def WriteFrameRaw (crc16 : List Byte → U16) (writer : Writer) (header : MessageHeader)
    (writeMsg : Except Panic (List Byte)) : Except Panic Writer :=
  let buf0 := putU16 0xaaaa ++ [(0 : Byte)] ++ header.toBytes
  match writeMsg with
  | .error p => .error p
  | .ok payload =>
    let buf1 := buf0 ++ payload
    let bs := buf1.set 2 (u8 buf1.length)
    let buf2 := bs ++ putU16 (crc16 (bs.drop 2))
    .ok (writer ++ [buf2])

/-- The closure `WriteFrame` passes to `WriteFrameRaw`. -/
def writeMsgOf {Obj : Type} (M : Messages Obj) (msg : Obj) : Except Panic (List Byte) :=
  let err : Except String (List Byte) :=
    match M.ToRaw msg with
    | some (.ok preprocessed) => M.WriteMessage preprocessed
    | some (.error e) => .error e
    | none => M.WriteMessage msg
  match err with
  | .ok bytes => .ok bytes
  | .error e => .error (.writeMessageFailed e)

/-- The function `WriteFrame`. -/
def WriteFrame {Obj : Type} (crc16 : List Byte → U16) (M : Messages Obj) (writer : Writer)
    (fullMsg : SmartbusMessage Obj) : Except Panic Writer :=
  if M.isMessage fullMsg.Message then
    let msg := fullMsg.Message
    let header := { fullMsg.Header with Opcode := M.Opcode msg }
    WriteFrameRaw crc16 writer header (writeMsgOf M msg)
  else .error .typeAssertion

/-! ## Readers -/

/-- The function `ReadSync`: the error returned (`none` is `nil`), the stream left, the mutex. -/
def ReadSync : Stream → Mutex → Option ReadErr × Stream × Mutex
  | [], m => (some .EOF, [], m)
  | .err e :: r, m => if isTimeout e then ReadSync r m else (some e, r, m)
  | .byte b :: r, m =>
    if b ≠ 0xaa then ReadSync r m
    else
      match r with
      | [] => (some .EOF, [], m ++ [.Lock] ++ [.Unlock])
      | .err e :: r2 =>
        if isTimeout e then ReadSync r2 (m ++ [.Lock])
        else (some e, r2, m ++ [.Lock] ++ [.Unlock])
      | .byte b2 :: r2 =>
        if b2 = 0xaa then (none, r2, m ++ [.Lock])
        else ReadSync r2 (m ++ [.Lock] ++ [.Unlock])

/-- The function `ReadSmartbusFrame`. -/
def ReadSmartbusFrame (crc16 : List Byte → U16) (s : Stream) : FrameResult :=
  match readByte s with
  | (.error e, s1) =>
    if isTimeout e then ⟨none, true, some .timedOutLength, s1⟩
    else ⟨none, false, some .errorLength, s1⟩
  | (.ok l, s1) =>
    if l.val < MIN_FRAME_SIZE then ⟨none, true, some .tooShort, s1⟩
    else
      match readFull (l.val - 1) s1 with
      | (.error e, s2) =>
        if isTimeout e then ⟨none, true, some .timedOutBody, s2⟩
        else ⟨none, false, some .errorBody, s2⟩
      | (.ok body, s2) =>
        let frame := l :: body
        let crc := crc16 (frame.take (frame.length - 2))
        if crc ≠ Uint16 (frame.drop (frame.length - 2)) then
          ⟨none, true, some .badCrc, s2⟩
        else ⟨some frame, true, none, s2⟩

/-- The loop of `ReadSmartbusRaw`, at most `fuel` iterations; `none` when the
iterations run out. `frameHandler` acts on a state of type `σ`. -/
def ReadSmartbusRawLoop {σ : Type} (crc16 : List Byte → U16)
    (frameHandler : σ → List Byte → σ) :
    Nat → Stream → Mutex → σ → Option (RawResult σ)
  | 0, _, _, _ => none
  | fuel + 1, s, m, st =>
    match ReadSync s m with
    | (some e, s1, m1) => some ⟨some e, st, m1, s1⟩
    | (none, s1, m1) =>
      let r := ReadSmartbusFrame crc16 s1
      let m2 := m1 ++ [.Unlock]
      let st2 := match r.frame with
        | some frame => frameHandler st frame
        | none => st
      if r.cont then ReadSmartbusRawLoop crc16 frameHandler fuel r.rest m2 st2
      else some ⟨none, st2, m2, r.rest⟩

/-- The function `ReadSmartbusRaw`: every iteration that goes on has consumed an event, so
one iteration more than the stream has events is enough. -/
def ReadSmartbusRaw {σ : Type} (crc16 : List Byte → U16) (frameHandler : σ → List Byte → σ)
    (reader : Stream) (mutex : Mutex) (st : σ) : Option (RawResult σ) :=
  ReadSmartbusRawLoop crc16 frameHandler (reader.length + 1) reader mutex st

/-- The `frameHandler` that records the frames it is called with, oldest first. -/
def recordFrame (frames : List (List Byte)) (frame : List Byte) : List (List Byte) :=
  frames ++ [frame]

/-- The function `ParseFrame`; `none` is the run-time panic of `frame[1 : len(frame)-2]` on a
frame shorter than three bytes. -/
def ParseFrame {Obj : Type} (M : Messages Obj) (frame : List Byte) :
    Option (Except ParseError (SmartbusMessage Obj)) :=
  if frame.length < 3 then none
  else
    let buf := (frame.take (frame.length - 2)).drop 1
    match readHeader buf with
    | .error e => some (.error (.header e))
    | .ok (header, buf1) =>
      match M.recognizedMessages header.Opcode with
      | none => some (.error (.opcodeNotRecognized header.Opcode))
      | some msgParser =>
        match msgParser buf1 with
        | .error e => some (.error (.payload e))
        | .ok msg => some (.ok ⟨header, msg⟩)

/-! ## Concrete instances of the parameters -/

/-- A checksum to instantiate the parameter `crc16` with at concrete inputs: the
sum of the bytes, as a `uint16`. -/
def sampleCrc (bs : List Byte) : U16 :=
  u16 (bs.foldl (fun acc b => acc + b.val) 0)

/-- A one-opcode instance of `Messages`: a message is its own payload bytes,
its opcode is `0x0031`, it has no `ToRaw`, and the decoder registered for
`0x0031` returns the payload bytes. -/
def sampleMessages : Messages (List Byte) where
  isMessage := fun _ => true
  Opcode := fun _ => 0x0031
  ToRaw := fun _ => none
  WriteMessage := fun m => .ok m
  recognizedMessages := fun opcode =>
    if opcode = 0x0031 then some (fun payload => .ok payload) else none

/-- The header of the single-channel control example. -/
def sampleHeader : MessageHeader :=
  ⟨3, 0xfe, 0xfffe, 0x0031, 1, 0x1c⟩

/-! ## The inbound loop with its queues -/

/-- What `ReadSmartbus` has sent and printed: the values sent on `ch`, oldest
first; the frames sent on `rawReadCh` (`none` is the `nil` channel); the errors
printed by `failed to parse smartbus frame`; whether the slice expression of
`ParseFrame` panicked, which ends the goroutine; whether `ch` was closed. -/
structure Channels (Obj : Type) where
  ch : List (SmartbusMessage Obj)
  rawReadCh : Option (List (List Byte))
  errors : List ParseError
  panicked : Bool
  closed : Bool

/-- The closure `ReadSmartbus` passes to `ReadSmartbusRaw` as `frameHandler`. After
a panic nothing more happens. -/
def readHandler {Obj : Type} (M : Messages Obj) (c : Channels Obj) (frame : List Byte) :
    Channels Obj :=
  if c.panicked then c
  else
    let c1 := { c with rawReadCh := c.rawReadCh.map (fun q => q ++ [frame]) }
    match ParseFrame M frame with
    | none => { c1 with panicked := true }
    | some (.error err) => { c1 with errors := c1.errors ++ [err] }
    | some (.ok msg) => { c1 with ch := c1.ch ++ [msg] }

/-- The function `ReadSmartbus`: the loop, then `close(ch)`. -/
def ReadSmartbus {Obj : Type} (crc16 : List Byte → U16) (M : Messages Obj) (reader : Stream)
    (mutex : Mutex) (c : Channels Obj) : Option (RawResult (Channels Obj)) :=
  match ReadSmartbusRaw crc16 (readHandler M) reader mutex c with
  | none => none
  | some r =>
    some { r with handler := if r.handler.panicked then r.handler
                             else { r.handler with closed := true } }

/-- An instance of `Messages` over `Option (List Byte)`: `some p` is a message
with payload bytes `p` and opcode `0x0031`, `none` is a value that does not
implement `Message`; nothing has a `ToRaw`, and no decoder is registered. -/
def optionMessages : Messages (Option (List Byte)) where
  isMessage := fun m => m.isSome
  Opcode := fun _ => 0x0031
  ToRaw := fun _ => none
  WriteMessage := fun m => .ok (m.getD [])
  recognizedMessages := fun _ => none

/-- Modelled from the spec: the size in bytes of the payload of the single-channel
control command for `(channel=2, level=100, duration=0)`. The payload is
produced by `WriteMessage` on the command type, both outside `frame.go`; the
spec names the three values, not their byte layout, and gives the frame
length 19 and the wire size 21 for this payload, which `WriteFrameRaw` reaches
with 8 payload bytes. -/
def singleChannelControlPayloadSize : Nat := 8

/-! ## Auxiliary facts -/

theorem Uint16_putU16 (v : U16) (r : List Byte) : Uint16 (putU16 v ++ r) = v := by
  apply Fin.ext
  have h := v.isLt
  simp only [putU16, Uint16, u8, u16, List.cons_append, List.nil_append]
  omega

theorem toBytes_length (h : MessageHeader) : h.toBytes.length = 8 := by
  simp [MessageHeader.toBytes, putU16]

theorem readHeader_toBytes (h : MessageHeader) (p : List Byte) :
    readHeader (h.toBytes ++ p) = .ok (h, p) := by
  have h1 := Uint16_putU16 h.OrigDeviceType []
  have h2 := Uint16_putU16 h.Opcode []
  simp only [putU16, List.append_nil] at h1 h2
  simp [MessageHeader.toBytes, putU16, readHeader, h1, h2]

theorem readFullFrom_bytes (bs : List Byte) (rest : Stream) (got : Nat) :
    readFullFrom got bs.length (bs.map Ev.byte ++ rest) = (.ok bs, rest) := by
  induction bs generalizing got with
  | nil => simp [readFullFrom]
  | cons b bs ih => simp [readFullFrom, ih]

theorem readFullFrom_ok (got n : Nat) (s : Stream) :
    ∀ (bs : List Byte) (r : Stream), readFullFrom got n s = (.ok bs, r) →
      s = bs.map Ev.byte ++ r ∧ bs.length = n := by
  induction got, n, s using readFullFrom.induct with
  | case1 got s =>
    intro bs r h
    simp [readFullFrom] at h
    simp [← h.1, h.2]
  | case2 got n => intro bs r h; simp [readFullFrom] at h
  | case3 got n e r => intro bs r h; simp [readFullFrom] at h
  | case4 got k b r bs1 r2 h1 ih =>
    intro bs r3 h
    simp only [readFullFrom, h1] at h
    have ih1 := ih bs1 r2 h1
    simp at h
    simp [← h.1, ← h.2, ih1.1, ih1.2]
  | case5 got k b r e r2 h1 ih =>
    intro bs r3 h
    simp [readFullFrom, h1] at h

theorem readFullFrom_rest_length (got n : Nat) (s : Stream) :
    (readFullFrom got n s).2.length ≤ s.length := by
  induction got, n, s using readFullFrom.induct with
  | case1 got s => simp [readFullFrom]
  | case2 got n => simp [readFullFrom]
  | case3 got n e r => simp [readFullFrom]
  | case4 got k b r bs r2 h ih =>
    simp only [readFullFrom, h] at ih ⊢
    simp at ih ⊢; omega
  | case5 got k b r e r2 h ih =>
    simp only [readFullFrom, h] at ih ⊢
    simp at ih ⊢; omega

theorem readFullFrom_eof (bs : List Byte) :
    ∀ (got n : Nat), bs.length < n →
      ∃ e, readFullFrom got n (bs.map Ev.byte) = (.error e, []) ∧ isTimeout e = false := by
  induction bs with
  | nil =>
    intro got n h
    cases n with
    | zero => simp at h
    | succ n =>
      by_cases hg : got = 0 <;> simp [readFullFrom, hg, isTimeout]
  | cons b bs ih =>
    intro got n h
    cases n with
    | zero => simp at h
    | succ n =>
      obtain ⟨e, he, ht⟩ := ih (got + 1) n (by simpa using h)
      exact ⟨e, by simp [readFullFrom, he], ht⟩

theorem readByte_rest_length (s : Stream) : (readByte s).2.length ≤ s.length := by
  cases s with
  | nil => simp [readByte]
  | cons a r => cases a <;> simp [readByte]

theorem ReadSync_pair (r : Stream) (m : Mutex) :
    ReadSync (.byte 0xaa :: .byte 0xaa :: r) m = (none, r, m ++ [.Lock]) := by
  simp [ReadSync]

theorem ReadSync_nil_length (s : Stream) (m : Mutex) (s1 : Stream) (m1 : Mutex)
    (h : ReadSync s m = (none, s1, m1)) : s1.length + 2 ≤ s.length := by
  induction s, m using ReadSync.induct generalizing s1 m1 with
  | case1 m => simp [ReadSync] at h
  | case2 e r m ht ih =>
    simp only [ReadSync, ht, if_true] at h
    have := ih s1 m1 h
    simp; omega
  | case3 e r m ht => simp [ReadSync, ht] at h
  | case4 b r m hb ih =>
    rw [ReadSync.eq_def] at h
    simp only [hb, ne_eq, not_false_eq_true, if_true] at h
    have := ih s1 m1 h
    simp; omega
  | case5 b m hb => simp [ReadSync, hb] at h
  | case6 b m hb e r2 ht ih =>
    simp [ReadSync, hb, ht] at h
    have := ih s1 m1 (by simpa using h)
    simp; omega
  | case7 b m hb e r2 ht => simp [ReadSync, hb, ht] at h
  | case8 b m hb r2 =>
    simp [ReadSync, hb] at h
    simp [← h.1]
  | case9 b m hb b2 r2 hb2 ih =>
    simp [ReadSync, hb, hb2] at h
    have := ih s1 m1 (by simpa using h)
    simp; omega

theorem ReadSync_no_pair : ∀ (bs : List Byte) (m : Mutex), ¬ [(0xaa : Byte), 0xaa] <:+: bs →
    ∃ m1, ReadSync (bs.map Ev.byte) m = (some .EOF, [], m1)
  | [], m, _ => ⟨m, by simp [ReadSync]⟩
  | [b], m, _ => by
    by_cases hb : b = 0xaa <;> simp [ReadSync, hb]
  | b :: c :: r, m, h => by
    have h1 : ¬ [(0xaa : Byte), 0xaa] <:+: c :: r := fun hi =>
      h (List.infix_cons_iff.2 (Or.inr hi))
    by_cases hb : b = 0xaa
    · have hc : c ≠ 0xaa := by
        intro hc
        apply h
        rw [hb, hc]
        exact List.infix_cons_iff.2 (Or.inl (List.prefix_append [0xaa, 0xaa] r))
      have h2 : ¬ [(0xaa : Byte), 0xaa] <:+: r := fun hi =>
        h1 (List.infix_cons_iff.2 (Or.inr hi))
      obtain ⟨m1, hm⟩ := ReadSync_no_pair r (m ++ [.Lock] ++ [.Unlock]) h2
      exact ⟨m1, by simpa [ReadSync, hb, hc] using hm⟩
    · obtain ⟨m1, hm⟩ := ReadSync_no_pair (c :: r) m h1
      refine ⟨m1, ?_⟩
      simp only [List.map_cons] at hm
      simp [ReadSync, hb, hm]

theorem ReadSmartbusFrame_body_ok (crc16 : List Byte → U16) (l : Byte) (s1 s2 : Stream)
    (body : List Byte) (hl : 11 ≤ l.val) (hr : readFull (l.val - 1) s1 = (.ok body, s2)) :
    ReadSmartbusFrame crc16 (.byte l :: s1) =
      if crc16 ((l :: body).take ((l :: body).length - 2)) =
          Uint16 ((l :: body).drop ((l :: body).length - 2)) then
        ⟨some (l :: body), true, none, s2⟩
      else ⟨none, true, some .badCrc, s2⟩ := by
  have hnot : ¬ l.val < MIN_FRAME_SIZE := by simp [MIN_FRAME_SIZE]; omega
  simp only [ReadSmartbusFrame, readByte, hnot, if_false, hr]
  by_cases hc : crc16 ((l :: body).take ((l :: body).length - 2)) =
      Uint16 ((l :: body).drop ((l :: body).length - 2))
  · simp [hc]
  · simp [hc]

theorem ReadSmartbusFrame_body_err (crc16 : List Byte → U16) (l : Byte) (s1 s2 : Stream)
    (e : ReadErr) (hl : 11 ≤ l.val) (hr : readFull (l.val - 1) s1 = (.error e, s2)) :
    ReadSmartbusFrame crc16 (.byte l :: s1) =
      if isTimeout e then ⟨none, true, some .timedOutBody, s2⟩
      else ⟨none, false, some .errorBody, s2⟩ := by
  have hnot : ¬ l.val < MIN_FRAME_SIZE := by simp [MIN_FRAME_SIZE]; omega
  simp only [ReadSmartbusFrame, readByte, hnot, if_false, hr]

theorem ReadSmartbusFrame_bytes (crc16 : List Byte → U16) (l : Byte) (body : List Byte)
    (rest : Stream) (hl : 11 ≤ l.val) (hb : body.length = l.val - 1) :
    ReadSmartbusFrame crc16 (.byte l :: (body.map Ev.byte ++ rest)) =
      if crc16 ((l :: body).take (l.val - 2)) = Uint16 ((l :: body).drop (l.val - 2)) then
        ⟨some (l :: body), true, none, rest⟩
      else ⟨none, true, some .badCrc, rest⟩ := by
  have hlen : (l :: body).length = l.val := by simp [hb]; omega
  have hr : readFull (l.val - 1) (body.map Ev.byte ++ rest) = (.ok body, rest) := by
    rw [← hb]; exact readFullFrom_bytes body rest 0
  rw [ReadSmartbusFrame_body_ok crc16 l _ _ body hl hr, hlen]

theorem ReadSmartbusFrame_tooShort (crc16 : List Byte → U16) (l : Byte) (rest : Stream)
    (hl : l.val < 11) :
    ReadSmartbusFrame crc16 (.byte l :: rest) = ⟨none, true, some .tooShort, rest⟩ := by
  simp [ReadSmartbusFrame, readByte, MIN_FRAME_SIZE, hl]

theorem ReadSmartbusFrame_rest_length (crc16 : List Byte → U16) (s : Stream) :
    (ReadSmartbusFrame crc16 s).rest.length ≤ s.length := by
  have h1 := readByte_rest_length s
  unfold ReadSmartbusFrame
  split
  · rename_i e s1 he
    rw [he] at h1
    split <;> simpa using h1
  · rename_i l s1 hl
    rw [hl] at h1
    split
    · simpa using h1
    · have h2 := readFullFrom_rest_length 0 (l.val - 1) s1
      unfold readFull
      split
      · rename_i e s2 he
        rw [he] at h2
        split <;> simp at h1 h2 ⊢ <;> omega
      · rename_i body s2 hb
        rw [hb] at h2
        simp only
        split <;> simp at h1 h2 ⊢ <;> omega

theorem ReadSmartbusFrame_some (crc16 : List Byte → U16) (s : Stream) (f : List Byte)
    (h : (ReadSmartbusFrame crc16 s).frame = some f) :
    s = f.map Ev.byte ++ (ReadSmartbusFrame crc16 s).rest ∧ 11 ≤ f.length ∧
      (∃ l body, f = l :: body ∧ l.val = f.length) ∧
      crc16 (f.take (f.length - 2)) = Uint16 (f.drop (f.length - 2)) ∧
      (ReadSmartbusFrame crc16 s).cont = true := by
  cases s with
  | nil => simp [ReadSmartbusFrame, readByte, isTimeout] at h
  | cons a s1 =>
    cases a with
    | err e =>
      by_cases ht : isTimeout e = true <;> simp [ReadSmartbusFrame, readByte, ht] at h
    | byte l =>
      by_cases hl : l.val < 11
      · rw [ReadSmartbusFrame_tooShort crc16 l s1 hl] at h
        simp at h
      · have hl11 : 11 ≤ l.val := by omega
        cases hr : readFull (l.val - 1) s1 with
        | mk res s2 =>
          cases res with
          | error e =>
            rw [ReadSmartbusFrame_body_err crc16 l s1 s2 e hl11 hr] at h
            by_cases ht : isTimeout e = true <;> simp [ht] at h
          | ok body =>
            have hok := readFullFrom_ok 0 (l.val - 1) s1 body s2 hr
            rw [ReadSmartbusFrame_body_ok crc16 l s1 s2 body hl11 hr] at h ⊢
            by_cases hc : crc16 ((l :: body).take ((l :: body).length - 2))
                = Uint16 ((l :: body).drop ((l :: body).length - 2))
            · rw [if_pos hc] at h ⊢
              simp only [Option.some.injEq] at h
              subst h
              refine ⟨by simp [hok.1], by simp [hok.2]; omega, ⟨l, body, rfl, ?_⟩, hc, rfl⟩
              simp [hok.2]; omega
            · rw [if_neg hc] at h
              simp at h

theorem ReadSmartbusRawLoop_fuel {σ : Type} (crc16 : List Byte → U16)
    (frameHandler : σ → List Byte → σ) (f1 : Nat) :
    ∀ (f2 : Nat) (s : Stream) (m : Mutex) (st : σ), s.length < f1 → s.length < f2 →
      ReadSmartbusRawLoop crc16 frameHandler f1 s m st =
        ReadSmartbusRawLoop crc16 frameHandler f2 s m st := by
  induction f1 with
  | zero => intro f2 s m st h; omega
  | succ f1 ih =>
    intro f2 s m st h1 h2
    cases f2 with
    | zero => omega
    | succ f2 =>
      simp only [ReadSmartbusRawLoop]
      split
      · rfl
      · rename_i s1 m1 hs
        have hlen := ReadSync_nil_length s m s1 m1 hs
        have hr := ReadSmartbusFrame_rest_length crc16 s1
        split
        · exact ih f2 _ _ _ (by omega) (by omega)
        · rfl

theorem ReadSmartbusRawLoop_isSome {σ : Type} (crc16 : List Byte → U16)
    (frameHandler : σ → List Byte → σ) (f : Nat) :
    ∀ (s : Stream) (m : Mutex) (st : σ), s.length < f →
      (ReadSmartbusRawLoop crc16 frameHandler f s m st).isSome = true := by
  induction f with
  | zero => intro s m st h; omega
  | succ f ih =>
    intro s m st h
    simp only [ReadSmartbusRawLoop]
    split
    · rfl
    · rename_i s1 m1 hs
      have hlen := ReadSync_nil_length s m s1 m1 hs
      have hr := ReadSmartbusFrame_rest_length crc16 s1
      split
      · exact ih _ _ _ (by omega)
      · rfl

theorem ReadSmartbusRawLoop_short {σ : Type} (crc16 : List Byte → U16)
    (frameHandler : σ → List Byte → σ) (f : Nat) :
    ∀ (s : Stream) (m : Mutex) (st : σ) (r : RawResult σ), s.length < 13 →
      ReadSmartbusRawLoop crc16 frameHandler f s m st = some r → r.handler = st := by
  induction f with
  | zero => intro s m st r _ h; simp [ReadSmartbusRawLoop] at h
  | succ f ih =>
    intro s m st r hs h
    simp only [ReadSmartbusRawLoop] at h
    split at h
    · simp at h; simp [← h]
    · rename_i s1 m1 hsync
      have hlen := ReadSync_nil_length s m s1 m1 hsync
      have hr := ReadSmartbusFrame_rest_length crc16 s1
      have hnone : (ReadSmartbusFrame crc16 s1).frame = none := by
        cases hf : (ReadSmartbusFrame crc16 s1).frame with
        | none => rfl
        | some fr =>
          have h5 := ReadSmartbusFrame_some crc16 s1 fr hf
          have h6 := congrArg List.length h5.1
          simp at h6
          omega
      simp only [hnone] at h
      split at h
      · exact ih _ _ _ _ (by omega) h
      · simp at h; simp [← h]

theorem WriteFrameRaw_frame (crc16 : List Byte → U16) (writer : Writer) (h : MessageHeader)
    (p : List Byte) :
    WriteFrameRaw crc16 writer h (.ok p) =
      .ok (writer ++ [0xaa :: 0xaa :: ((u8 (11 + p.length) :: (h.toBytes ++ p)) ++
        putU16 (crc16 (u8 (11 + p.length) :: (h.toBytes ++ p))))]) := by
  have n11 : p.length + 1 + 1 + 1 + 1 + 1 + 1 + 1 + 1 + 1 + 1 + 1 = 11 + p.length := by omega
  simp only [WriteFrameRaw, MessageHeader.toBytes, putU16, List.cons_append,
    List.nil_append, List.set, List.drop, List.length_cons, List.append_assoc, n11]
  rfl

theorem ReadSmartbusFrame_written (crc16 : List Byte → U16) (h : MessageHeader)
    (p : List Byte) (rest : Stream) (hp : p.length ≤ 244) :
    ReadSmartbusFrame crc16
      (((u8 (11 + p.length) :: (h.toBytes ++ p)) ++
        putU16 (crc16 (u8 (11 + p.length) :: (h.toBytes ++ p)))).map Ev.byte ++ rest) =
      ⟨some ((u8 (11 + p.length) :: (h.toBytes ++ p)) ++
        putU16 (crc16 (u8 (11 + p.length) :: (h.toBytes ++ p)))), true, none, rest⟩ := by
  have hl : (u8 (11 + p.length)).val = 11 + p.length := by
    simp only [u8]; omega
  have h8 := toBytes_length h
  have hA : (u8 (11 + p.length) :: (h.toBytes ++ p)).length = (u8 (11 + p.length)).val - 2 := by
    simp [h8, hl]; omega
  have hb : ((h.toBytes ++ p) ++ putU16 (crc16 (u8 (11 + p.length) :: (h.toBytes ++ p)))).length
      = (u8 (11 + p.length)).val - 1 := by
    simp [h8, hl, putU16]; omega
  have key := ReadSmartbusFrame_bytes crc16 (u8 (11 + p.length))
    ((h.toBytes ++ p) ++ putU16 (crc16 (u8 (11 + p.length) :: (h.toBytes ++ p)))) rest
    (by omega) hb
  have e : u8 (11 + p.length) :: ((h.toBytes ++ p) ++
      putU16 (crc16 (u8 (11 + p.length) :: (h.toBytes ++ p)))) =
      (u8 (11 + p.length) :: (h.toBytes ++ p)) ++
        putU16 (crc16 (u8 (11 + p.length) :: (h.toBytes ++ p))) := rfl
  rw [e, List.take_left' hA, List.drop_left' hA] at key
  have hu := Uint16_putU16 (crc16 (u8 (11 + p.length) :: (h.toBytes ++ p))) []
  rw [List.append_nil] at hu
  rw [hu, if_pos rfl] at key
  simpa using key

theorem ParseFrame_written {Obj : Type} (M : Messages Obj)
    (h : MessageHeader) (p : List Byte) (l : Byte) (c : U16)
    (dec : List Byte → Except String Obj) (m : Obj)
    (hreg : M.recognizedMessages h.Opcode = some dec) (hdec : dec p = .ok m) :
    ParseFrame M ((l :: (h.toBytes ++ p)) ++ putU16 c) = some (.ok ⟨h, m⟩) := by
  have h8 := toBytes_length h
  have hlen : ((l :: (h.toBytes ++ p)) ++ putU16 c).length - 2 = (l :: (h.toBytes ++ p)).length := by
    simp [putU16]; omega
  have h3 : ¬ ((l :: (h.toBytes ++ p)) ++ putU16 c).length < 3 := by
    simp [putU16, h8]; omega
  simp only [ParseFrame, h3, if_false, hlen, List.take_left' rfl, List.drop_succ_cons, List.drop_zero,
    readHeader_toBytes, hreg, hdec]

theorem ReadSmartbusRawLoop_step {σ : Type} (crc16 : List Byte → U16)
    (frameHandler : σ → List Byte → σ) (fuel : Nat) (s s1 : Stream) (m m1 : Mutex) (st : σ)
    (hs : ReadSync s m = (none, s1, m1)) (hc : (ReadSmartbusFrame crc16 s1).cont = true) :
    ReadSmartbusRawLoop crc16 frameHandler (fuel + 1) s m st =
      ReadSmartbusRawLoop crc16 frameHandler fuel (ReadSmartbusFrame crc16 s1).rest
        (m1 ++ [.Unlock])
        (match (ReadSmartbusFrame crc16 s1).frame with
          | some frame => frameHandler st frame
          | none => st) := by
  rw [ReadSmartbusRawLoop]
  simp only [hs, hc, if_true]

theorem isTimeout_iff (e : ReadErr) : isTimeout e = true ↔ e = .timeout := by
  cases e <;> simp [isTimeout]

theorem lockPairs_succ (m : Mutex) (k : Nat) :
    m ++ [.Lock] ++ [.Unlock] ++ (List.replicate k [MutexOp.Lock, MutexOp.Unlock]).flatten =
      m ++ (List.replicate (k + 1) [MutexOp.Lock, MutexOp.Unlock]).flatten := by
  simp [List.replicate_succ]

/-- On a reader that never times out the lock discipline of `ReadSync` holds: the
calls it adds to the mutex are some `Lock, Unlock` pairs, followed by one `Lock`
exactly when it returns `nil`. -/
theorem ReadSync_mutex_without_timeout (s : Stream) (m : Mutex)
    (h : ∀ ev ∈ s, ev ≠ Ev.err .timeout) :
    ∃ k, (ReadSync s m).2.2 =
      m ++ (List.replicate k [MutexOp.Lock, MutexOp.Unlock]).flatten ++
        (if (ReadSync s m).1 = none then [MutexOp.Lock] else []) := by
  induction s, m using ReadSync.induct with
  | case1 m => exact ⟨0, by simp [ReadSync]⟩
  | case2 e r m ht ih =>
    exact absurd (by rw [(isTimeout_iff e).1 ht]) (h (.err e) (by simp))
  | case3 e r m ht => exact ⟨0, by simp [ReadSync, ht]⟩
  | case4 b r m hb ih =>
    obtain ⟨k, hk⟩ := ih (fun ev hev => h ev (List.mem_cons_of_mem _ hev))
    refine ⟨k, ?_⟩
    rw [ReadSync.eq_def]
    simpa only [hb, ne_eq, not_false_eq_true, if_true] using hk
  | case5 b m hb => exact ⟨1, by simp [ReadSync, hb, List.replicate]⟩
  | case6 b m hb e r2 ht ih =>
    exact absurd (by rw [(isTimeout_iff e).1 ht]) (h (.err e) (by simp))
  | case7 b m hb e r2 ht => exact ⟨1, by simp [ReadSync, hb, ht, List.replicate]⟩
  | case8 b m hb r2 => exact ⟨0, by simp [ReadSync, hb]⟩
  | case9 b m hb b2 r2 hb2 ih =>
    obtain ⟨k, hk⟩ := ih (fun ev hev =>
      h ev (List.mem_cons_of_mem _ (List.mem_cons_of_mem _ hev)))
    refine ⟨k + 1, ?_⟩
    simp only [not_not] at hb
    simp only [ReadSync, hb, hb2, ne_eq, not_true_eq_false, if_false]
    rw [hk, lockPairs_succ]

theorem ReadSync_leftmost_pair : ∀ (pre post : List Byte) (rest : Stream) (m : Mutex),
    ¬ [(0xaa : Byte), 0xaa] <:+: pre ++ [0xaa] →
    ∃ m1, ReadSync ((pre ++ 0xaa :: 0xaa :: post).map Ev.byte ++ rest) m =
      (none, post.map Ev.byte ++ rest, m1)
  | [], post, rest, m, _ => ⟨m ++ [.Lock], by simp [ReadSync]⟩
  | [b], post, rest, m, h => by
    have hb : b ≠ 0xaa := by
      intro hb
      apply h
      rw [hb]
      exact List.infix_refl _
    exact ⟨m ++ [.Lock], by simp [ReadSync, hb]⟩
  | b :: c :: r, post, rest, m, h => by
    have h1 : ¬ [(0xaa : Byte), 0xaa] <:+: (c :: r) ++ [0xaa] := fun hi =>
      h (List.infix_cons_iff.2 (Or.inr hi))
    by_cases hb : b = 0xaa
    · have hc : c ≠ 0xaa := by
        intro hc
        apply h
        rw [hb, hc]
        exact List.infix_cons_iff.2 (Or.inl (List.prefix_append [0xaa, 0xaa] (r ++ [0xaa])))
      have h2 : ¬ [(0xaa : Byte), 0xaa] <:+: r ++ [0xaa] := fun hi =>
        h1 (List.infix_cons_iff.2 (Or.inr hi))
      obtain ⟨m1, hm⟩ := ReadSync_leftmost_pair r post rest (m ++ [.Lock] ++ [.Unlock]) h2
      exact ⟨m1, by simpa [ReadSync, hb, hc] using hm⟩
    · obtain ⟨m1, hm⟩ := ReadSync_leftmost_pair (c :: r) post rest m h1
      refine ⟨m1, ?_⟩
      simp only [List.cons_append, List.map_cons] at hm ⊢
      rw [ReadSync.eq_def]
      simpa only [hb, ne_eq, not_false_eq_true, if_true] using hm

theorem leftmost_pair_split : ∀ bs : List Byte, [(0xaa : Byte), 0xaa] <:+: bs →
    ∃ pre post, bs = pre ++ 0xaa :: 0xaa :: post ∧ ¬ [(0xaa : Byte), 0xaa] <:+: pre ++ [0xaa]
  | [], h => by simp at h
  | b :: t, h => by
    by_cases hp : [(0xaa : Byte), 0xaa] <+: b :: t
    · obtain ⟨post, hpost⟩ := hp
      exact ⟨[], post, by simpa using hpost.symm, by decide⟩
    · have ht : [(0xaa : Byte), 0xaa] <:+: t := by
        rcases List.infix_cons_iff.1 h with h1 | h1
        · exact absurd h1 hp
        · exact h1
      obtain ⟨pre, post, hbs, hno⟩ := leftmost_pair_split t ht
      refine ⟨b :: pre, post, by simp [hbs], ?_⟩
      intro hi
      rcases List.infix_cons_iff.1 hi with h1 | h1
      · apply hp
        have hpre : (b :: pre) ++ [0xaa] <+: b :: t := by
          rw [hbs]
          exact ⟨0xaa :: post, by simp⟩
        exact List.IsPrefix.trans h1 hpre
      · exact hno h1

theorem ReadSync_bytes_mutex (bs : List Byte) (m : Mutex) :
    ∃ k, (ReadSync (bs.map Ev.byte) m).2.2 =
      m ++ (List.replicate k [MutexOp.Lock, MutexOp.Unlock]).flatten ++
        (if (ReadSync (bs.map Ev.byte) m).1 = none then [MutexOp.Lock] else []) := by
  apply ReadSync_mutex_without_timeout
  intro ev hev
  obtain ⟨b, _, hb⟩ := List.mem_map.1 hev
  rw [← hb]
  simp

theorem ReadSmartbusFrame_again (crc16 : List Byte → U16) (s rest : Stream) (f : List Byte)
    (hf : (ReadSmartbusFrame crc16 s).frame = some f) :
    ReadSmartbusFrame crc16 (f.map Ev.byte ++ rest) = ⟨some f, true, none, rest⟩ := by
  obtain ⟨_, h11, ⟨l, body, hlb, hl⟩, hcrc, _⟩ := ReadSmartbusFrame_some crc16 s f hf
  subst hlb
  have hb : body.length = l.val - 1 := by simp at hl; omega
  have key := ReadSmartbusFrame_bytes crc16 l body rest (by omega) hb
  rw [hl] at key
  rw [if_pos hcrc] at key
  simpa using key

theorem WriteFrame_eq_raw {Obj : Type} (crc16 : List Byte → U16) (M : Messages Obj)
    (writer : Writer) (h : MessageHeader) (m : Obj) (hmsg : M.isMessage m = true) :
    WriteFrame crc16 M writer ⟨h, m⟩ =
      WriteFrameRaw crc16 writer { h with Opcode := M.Opcode m } (writeMsgOf M m) := by
  simp [WriteFrame, hmsg]

theorem ReadSmartbusRawLoop_sim {σ τ : Type} (crc16 : List Byte → U16)
    (h1 : σ → List Byte → σ) (h2 : τ → List Byte → τ) (R : σ → τ → Prop)
    (hR : ∀ a b f, 11 ≤ f.length → (∃ l body, f = l :: body ∧ l.val = f.length) →
      crc16 (f.take (f.length - 2)) = Uint16 (f.drop (f.length - 2)) →
      R a b → R (h1 a f) (h2 b f))
    (fuel : Nat) : ∀ (s : Stream) (m : Mutex) (a : σ) (b : τ), R a b →
      (ReadSmartbusRawLoop crc16 h1 fuel s m a = none ∧
        ReadSmartbusRawLoop crc16 h2 fuel s m b = none) ∨
      ∃ r1 r2, ReadSmartbusRawLoop crc16 h1 fuel s m a = some r1 ∧
        ReadSmartbusRawLoop crc16 h2 fuel s m b = some r2 ∧
        r1.err = r2.err ∧ r1.mutex = r2.mutex ∧ r1.rest = r2.rest ∧
        R r1.handler r2.handler := by
  induction fuel with
  | zero => intro s m a b _; exact Or.inl ⟨rfl, rfl⟩
  | succ fuel ih =>
    intro s m a b hab
    rw [ReadSmartbusRawLoop, ReadSmartbusRawLoop]
    rcases hs : ReadSync s m with ⟨e, s1, m1⟩
    cases e with
    | some e => exact Or.inr ⟨_, _, rfl, rfl, rfl, rfl, rfl, hab⟩
    | none =>
      simp only
      have hab2 : R
          (match (ReadSmartbusFrame crc16 s1).frame with
            | some frame => h1 a frame
            | none => a)
          (match (ReadSmartbusFrame crc16 s1).frame with
            | some frame => h2 b frame
            | none => b) := by
        cases hf : (ReadSmartbusFrame crc16 s1).frame with
        | none => exact hab
        | some f =>
          obtain ⟨_, h11, hl, hcrc, _⟩ := ReadSmartbusFrame_some crc16 s1 f hf
          exact hR a b f h11 hl hcrc hab
      by_cases hc : (ReadSmartbusFrame crc16 s1).cont = true
      · simp only [hc, if_true]
        exact ih _ _ _ _ hab2
      · simp only [hc]
        exact Or.inr ⟨_, _, rfl, rfl, rfl, rfl, rfl, hab2⟩

theorem ReadSmartbusRaw_total {σ : Type} (crc16 : List Byte → U16)
    (frameHandler : σ → List Byte → σ) (s : Stream) (m : Mutex) (st : σ) :
    ∃ r, ReadSmartbusRaw crc16 frameHandler s m st = some r :=
  Option.isSome_iff_exists.1
    (ReadSmartbusRawLoop_isSome crc16 frameHandler (s.length + 1) s m st (by omega))

theorem ReadSmartbusRaw_sim {σ τ : Type} (crc16 : List Byte → U16)
    (h1 : σ → List Byte → σ) (h2 : τ → List Byte → τ) (R : σ → τ → Prop)
    (hR : ∀ a b f, 11 ≤ f.length → (∃ l body, f = l :: body ∧ l.val = f.length) →
      crc16 (f.take (f.length - 2)) = Uint16 (f.drop (f.length - 2)) →
      R a b → R (h1 a f) (h2 b f))
    (s : Stream) (m : Mutex) (a : σ) (b : τ) (hab : R a b) (r2 : RawResult τ)
    (h2r : ReadSmartbusRaw crc16 h2 s m b = some r2) :
    ∃ r1, ReadSmartbusRaw crc16 h1 s m a = some r1 ∧
      r1.err = r2.err ∧ r1.mutex = r2.mutex ∧ r1.rest = r2.rest ∧
      R r1.handler r2.handler := by
  unfold ReadSmartbusRaw at h2r ⊢
  rcases ReadSmartbusRawLoop_sim crc16 h1 h2 R hR (s.length + 1) s m a b hab with
    ⟨_, hn⟩ | ⟨r1, r2b, e1, e2, he, hm, hrest, hrel⟩
  · rw [hn] at h2r; exact absurd h2r (by simp)
  · rw [e2] at h2r
    simp only [Option.some.injEq] at h2r
    subst h2r
    exact ⟨r1, e1, he, hm, hrest, hrel⟩

theorem readHeader_of_length : ∀ bs : List Byte, 8 ≤ bs.length →
    ∃ hdr payload, readHeader bs = .ok (hdr, payload) ∧
      hdr.Opcode = Uint16 ((bs.drop 4).take 2) ∧ payload = bs.drop 8
  | a :: b :: c :: d :: e :: f :: g :: h :: rest, _ =>
    ⟨⟨a, b, Uint16 [c, d], Uint16 [e, f], g, h⟩, rest, rfl, rfl, rfl⟩
  | [], h => by simp at h
  | [_], h => by simp at h
  | [_, _], h => by simp at h
  | [_, _, _], h => by simp at h
  | [_, _, _, _], h => by simp at h
  | [_, _, _, _, _], h => by simp at h
  | [_, _, _, _, _, _], h => by simp at h
  | [_, _, _, _, _, _, _], h => by simp at h

theorem ParseFrame_of_length {Obj : Type} (M : Messages Obj) (f : List Byte)
    (h11 : 11 ≤ f.length) :
    8 ≤ ((f.take (f.length - 2)).drop 1).length ∧
    ∃ hdr payload, readHeader ((f.take (f.length - 2)).drop 1) = .ok (hdr, payload) ∧
      hdr.Opcode = Uint16 ((f.drop 5).take 2) ∧
      ParseFrame M f =
        match M.recognizedMessages hdr.Opcode with
        | none => some (.error (.opcodeNotRecognized hdr.Opcode))
        | some msgParser =>
          match msgParser payload with
          | .error e => some (.error (.payload e))
          | .ok msg => some (.ok ⟨hdr, msg⟩) := by
  have h8 : 8 ≤ ((f.take (f.length - 2)).drop 1).length := by
    simp only [List.length_drop, List.length_take]; omega
  obtain ⟨hdr, payload, hh, hop, _⟩ := readHeader_of_length _ h8
  refine ⟨h8, hdr, payload, hh, ?_, ?_⟩
  · rw [hop]
    have e1 : ((f.take (f.length - 2)).drop 1).drop 4 = (f.drop 5).take (f.length - 2 - 5) := by
      rw [List.drop_drop, List.drop_take]
    rw [e1, List.take_take]
    have hmin : min 2 (f.length - 2 - 5) = 2 := by omega
    rw [hmin]
  · have h3 : ¬ f.length < 3 := by omega
    simp only [ParseFrame, h3, if_false, hh]

theorem recorded_frames_well_formed (crc16 : List Byte → U16) (s : Stream) (m : Mutex)
    (r : RawResult (List (List Byte)))
    (hr : ReadSmartbusRaw crc16 recordFrame s m [] = some r) :
    ∀ f ∈ r.handler, 11 ≤ f.length ∧ (∃ l body, f = l :: body ∧ l.val = f.length) ∧
      crc16 (f.take (f.length - 2)) = Uint16 (f.drop (f.length - 2)) := by
  obtain ⟨r2, h2⟩ := ReadSmartbusRaw_total crc16 (fun (_ : Unit) (_ : List Byte) => ()) s m ()
  obtain ⟨r1, h1, _, _, _, hrel⟩ := ReadSmartbusRaw_sim crc16 recordFrame
    (fun (_ : Unit) (_ : List Byte) => ())
    (fun a _ => ∀ f ∈ a, 11 ≤ f.length ∧ (∃ l body, f = l :: body ∧ l.val = f.length) ∧
      crc16 (f.take (f.length - 2)) = Uint16 (f.drop (f.length - 2)))
    (by
      intro a b f h11 hl hcrc ha g hg
      simp only [recordFrame, List.mem_append, List.mem_singleton] at hg
      rcases hg with hg | hg
      · exact ha g hg
      · subst hg; exact ⟨h11, hl, hcrc⟩)
    s m [] () (by simp) r2 h2
  rw [hr] at h1
  simp only [Option.some.injEq] at h1
  subst h1
  exact hrel

theorem readHandler_step {Obj : Type} (M : Messages Obj) (c : Channels Obj) (f : List Byte)
    (h11 : 11 ≤ f.length) (hc : c.panicked = false) :
    (readHandler M c f).panicked = false ∧
    (readHandler M c f).rawReadCh = c.rawReadCh.map (fun q => q ++ [f]) ∧
    (readHandler M c f).closed = c.closed ∧
    (readHandler M c f).ch.length + (readHandler M c f).errors.length =
      c.ch.length + c.errors.length + 1 := by
  obtain ⟨_, hdr, payload, _, _, hp⟩ := ParseFrame_of_length M f h11
  unfold readHandler
  rw [hp]
  simp only [hc, Bool.false_eq_true, if_false]
  cases hreg : M.recognizedMessages hdr.Opcode with
  | none => simp; omega
  | some msgParser =>
    cases hmp : msgParser payload with
    | error e => simp [hmp]; omega
    | ok msg => simp [hmp]; omega

theorem ReadSmartbus_recorded {Obj : Type} (crc16 : List Byte → U16) (M : Messages Obj)
    (s : Stream) (m : Mutex) (c : Channels Obj) (hc : c.panicked = false) :
    ∃ r0 r, ReadSmartbusRaw crc16 recordFrame s m [] = some r0 ∧
      ReadSmartbus crc16 M s m c = some r ∧
      r.err = r0.err ∧ r.mutex = r0.mutex ∧ r.rest = r0.rest ∧
      r.handler.rawReadCh = c.rawReadCh.map (fun q => q ++ r0.handler) ∧
      r.handler.panicked = false ∧ r.handler.closed = true ∧
      r.handler.ch.length + r.handler.errors.length =
        c.ch.length + c.errors.length + r0.handler.length := by
  obtain ⟨r0, h0⟩ := ReadSmartbusRaw_total crc16 recordFrame s m []
  obtain ⟨r1, h1, he, hm, hrest, hp, hraw, _, hcount⟩ := ReadSmartbusRaw_sim crc16
    (readHandler M) recordFrame
    (fun a frames => a.panicked = false ∧
      a.rawReadCh = c.rawReadCh.map (fun q => q ++ frames) ∧ a.closed = c.closed ∧
      a.ch.length + a.errors.length = c.ch.length + c.errors.length + frames.length)
    (by
      intro a b f h11 _ _ hab
      obtain ⟨hp, hraw, hcl, hcount⟩ := hab
      obtain ⟨s1, s2, s3, s4⟩ := readHandler_step M a f h11 hp
      refine ⟨s1, ?_, by rw [s3, hcl], ?_⟩
      · rw [s2, hraw]
        cases c.rawReadCh <;> simp [recordFrame]
      · rw [s4, hcount]
        simp [recordFrame]
        omega)
    s m c [] ⟨hc, by cases c.rawReadCh <;> simp, rfl, by simp⟩ r0 h0
  refine ⟨r0, { r1 with handler := { r1.handler with closed := true } }, h0, ?_,
    he, hm, hrest, hraw, hp, rfl, hcount⟩
  simp only [ReadSmartbus, h1, hp, Bool.false_eq_true, if_false]

theorem ReadSync_skip_garbage (g : List Byte) (s : Stream) (m : Mutex)
    (hg : (0xaa : Byte) ∉ g) : ReadSync (g.map Ev.byte ++ s) m = ReadSync s m := by
  induction g with
  | nil => rfl
  | cons b g ih =>
    have hb : b ≠ 0xaa := fun hb => hg (by simp [hb])
    have hg2 : (0xaa : Byte) ∉ g := fun h => hg (List.mem_cons_of_mem _ h)
    simp only [List.map_cons, List.cons_append]
    rw [ReadSync.eq_def]
    simp only [hb, ne_eq, not_false_eq_true, if_true]
    exact ih hg2

theorem ReadSmartbusRawLoop_congr {σ : Type} (crc16 : List Byte → U16)
    (frameHandler : σ → List Byte → σ) (fuel : Nat) (s s2 : Stream) (m : Mutex) (st : σ)
    (h : ReadSync s m = ReadSync s2 m) :
    ReadSmartbusRawLoop crc16 frameHandler (fuel + 1) s m st =
      ReadSmartbusRawLoop crc16 frameHandler (fuel + 1) s2 m st := by
  rw [ReadSmartbusRawLoop, ReadSmartbusRawLoop, h]

theorem ReadSmartbusRawLoop_frames {σ : Type} (crc16 : List Byte → U16)
    (frameHandler : σ → List Byte → σ) :
    ∀ (fs : List (List Byte)),
      (∀ f ∈ fs, ∀ rest : Stream,
        ReadSmartbusFrame crc16 (f.map Ev.byte ++ rest) = ⟨some f, true, none, rest⟩) →
      ∀ (fuel : Nat) (m : Mutex) (st : σ),
        ((fs.map (fun f => (0xaa : Byte) :: 0xaa :: f)).flatten.map Ev.byte).length < fuel →
        ∃ m1, ReadSmartbusRawLoop crc16 frameHandler fuel
            ((fs.map (fun f => (0xaa : Byte) :: 0xaa :: f)).flatten.map Ev.byte) m st =
          some ⟨some .EOF, fs.foldl frameHandler st, m1, []⟩
  | [], _, fuel, m, st, hfuel => by
    cases fuel with
    | zero => simp at hfuel
    | succ fuel => exact ⟨m, by simp [ReadSmartbusRawLoop, ReadSync]⟩
  | f :: fs, hfs, fuel, m, st, hfuel => by
    cases fuel with
    | zero => simp at hfuel
    | succ fuel =>
      have hshape : ((f :: fs).map (fun f => (0xaa : Byte) :: 0xaa :: f)).flatten.map Ev.byte =
          .byte 0xaa :: .byte 0xaa :: (f.map Ev.byte ++
            (fs.map (fun f => (0xaa : Byte) :: 0xaa :: f)).flatten.map Ev.byte) := by
        simp
      have hread := hfs f (List.mem_cons_self _ _)
        ((fs.map (fun f => (0xaa : Byte) :: 0xaa :: f)).flatten.map Ev.byte)
      rw [hshape] at hfuel ⊢
      rw [ReadSmartbusRawLoop_step crc16 frameHandler fuel _ _ m _ st (ReadSync_pair _ m)
        (by rw [hread])]
      simp only [hread, List.foldl_cons]
      refine ReadSmartbusRawLoop_frames crc16 frameHandler fs
        (fun g hg => hfs g (List.mem_cons_of_mem _ hg)) fuel _ _ ?_
      simp only [List.length_cons, List.length_append] at hfuel
      omega

theorem WriteFrameRaw_all (crc16 : List Byte → U16) :
    ∀ (pairs : List (MessageHeader × List Byte)) (w : Writer),
      (∀ hp ∈ pairs, hp.2.length ≤ 244) →
      ∃ fs : List (List Byte),
        List.foldlM (fun w hp => WriteFrameRaw crc16 w hp.1 (.ok hp.2)) w pairs =
          .ok (w ++ fs.map (fun f => (0xaa : Byte) :: 0xaa :: f)) ∧
        fs.length = pairs.length ∧
        ∀ f ∈ fs, ∀ rest : Stream,
          ReadSmartbusFrame crc16 (f.map Ev.byte ++ rest) = ⟨some f, true, none, rest⟩
  | [], w, _ => ⟨[], by simp [pure, Except.pure], rfl, by simp⟩
  | (h, p) :: ps, w, hlen => by
    obtain ⟨fs, hw, hl, hread⟩ := WriteFrameRaw_all crc16 ps
      (w ++ [0xaa :: 0xaa :: ((u8 (11 + p.length) :: (h.toBytes ++ p)) ++
        putU16 (crc16 (u8 (11 + p.length) :: (h.toBytes ++ p))))])
      (fun hp hmem => hlen hp (List.mem_cons_of_mem _ hmem))
    refine ⟨((u8 (11 + p.length) :: (h.toBytes ++ p)) ++
        putU16 (crc16 (u8 (11 + p.length) :: (h.toBytes ++ p)))) :: fs, ?_, by simp [hl], ?_⟩
    · rw [List.foldlM_cons, WriteFrameRaw_frame]
      simp only [bind, Except.bind]
      rw [hw]
      simp
    · intro f hf rest
      rcases List.mem_cons.1 hf with hf | hf
      · subst hf
        exact ReadSmartbusFrame_written crc16 h p rest (hlen (h, p) (List.mem_cons_self _ _))
      · exact hread f hf rest

theorem ReadSmartbusRaw_frame_step {σ : Type} (crc16 : List Byte → U16)
    (frameHandler : σ → List Byte → σ) (l : Byte) (body : List Byte) (rest : Stream)
    (m : Mutex) (st : σ) (hl : 11 ≤ l.val) (hb : body.length = l.val - 1)
    (hcrc : crc16 ((l :: body).take (l.val - 2)) = Uint16 ((l :: body).drop (l.val - 2))) :
    ReadSmartbusRaw crc16 frameHandler
        (.byte 0xaa :: .byte 0xaa :: ((l :: body).map Ev.byte ++ rest)) m st =
      ReadSmartbusRaw crc16 frameHandler rest (m ++ [.Lock, .Unlock])
        (frameHandler st (l :: body)) := by
  have hread : ReadSmartbusFrame crc16 ((l :: body).map Ev.byte ++ rest) =
      ⟨some (l :: body), true, none, rest⟩ := by
    have key := ReadSmartbusFrame_bytes crc16 l body rest hl hb
    rw [if_pos hcrc] at key
    simpa using key
  simp only [ReadSmartbusRaw, List.length_cons]
  rw [ReadSmartbusRawLoop_step crc16 frameHandler _ _ _ m _ st (ReadSync_pair _ m)
    (by rw [hread])]
  simp only [hread, List.append_assoc, List.cons_append, List.nil_append]
  refine ReadSmartbusRawLoop_fuel crc16 frameHandler _ _ rest _ _ ?_ ?_
  · simp only [List.length_append, List.length_map, List.length_cons]; omega
  · omega

theorem ReadSmartbus_frame_step {Obj : Type} (crc16 : List Byte → U16) (M : Messages Obj)
    (l : Byte) (body : List Byte) (rest : Stream) (m : Mutex) (c : Channels Obj)
    (hl : 11 ≤ l.val) (hb : body.length = l.val - 1)
    (hcrc : crc16 ((l :: body).take (l.val - 2)) = Uint16 ((l :: body).drop (l.val - 2))) :
    ReadSmartbus crc16 M (.byte 0xaa :: .byte 0xaa :: ((l :: body).map Ev.byte ++ rest)) m c =
      ReadSmartbus crc16 M rest (m ++ [.Lock, .Unlock]) (readHandler M c (l :: body)) := by
  simp only [ReadSmartbus, ReadSmartbusRaw_frame_step crc16 (readHandler M) l body rest m c
    hl hb hcrc]

theorem ReadSmartbus_after_frame {Obj : Type} (crc16 : List Byte → U16) (M : Messages Obj)
    (l : Byte) (body : List Byte) (rest : Stream) (m : Mutex) (c : Channels Obj)
    (r0 : RawResult (List (List Byte)))
    (hl : 11 ≤ l.val) (hb : body.length = l.val - 1)
    (hcrc : crc16 ((l :: body).take (l.val - 2)) = Uint16 ((l :: body).drop (l.val - 2)))
    (hc : c.panicked = false)
    (h0 : ReadSmartbusRaw crc16 recordFrame rest (m ++ [.Lock, .Unlock]) [] = some r0) :
    ∃ r, ReadSmartbus crc16 M
        (.byte 0xaa :: .byte 0xaa :: ((l :: body).map Ev.byte ++ rest)) m c = some r ∧
      r.err = r0.err ∧ r.mutex = r0.mutex ∧ r.rest = r0.rest ∧
      r.handler.rawReadCh = c.rawReadCh.map (fun q => q ++ (l :: body) :: r0.handler) ∧
      r.handler.panicked = false ∧ r.handler.closed = true ∧
      r.handler.ch.length + r.handler.errors.length =
        c.ch.length + c.errors.length + 1 + r0.handler.length := by
  have h11 : 11 ≤ (l :: body).length := by simp [hb]; omega
  obtain ⟨s1, s2, _, s4⟩ := readHandler_step M c (l :: body) h11 hc
  obtain ⟨r0b, r, h0b, hr, he, hm, hrest, hraw, hp, hcl, hcount⟩ :=
    ReadSmartbus_recorded crc16 M rest (m ++ [.Lock, .Unlock]) (readHandler M c (l :: body)) s1
  rw [h0] at h0b
  simp only [Option.some.injEq] at h0b
  subst h0b
  refine ⟨r, ?_, he, hm, hrest, ?_, hp, hcl, ?_⟩
  · rw [ReadSmartbus_frame_step crc16 M l body rest m c hl hb hcrc, hr]
  · rw [hraw, s2]
    cases c.rawReadCh <;> simp
  · rw [hcount, s4]

/-! ## Claims -/

/-- C2. For every header and every payload `p` the callback produces, `WriteFrameRaw`
hands the writer, in one `Write` call, the bytes `0xAA 0xAA L`, the eight header
bytes (origin subnet, origin device, origin device type big-endian, opcode
big-endian, target subnet, target device), `p`, and the big-endian `crc16` of
`[L] ++ header ++ p`, where `L = uint8(11 + len p)`; the markers are not part of
the checksummed bytes. -/
theorem WriteFrameRaw_wire_layout (crc16 : List Byte → U16) (writer : Writer)
    (h : MessageHeader) (p : List Byte) :
    WriteFrameRaw crc16 writer h (.ok p) =
      .ok (writer ++
        [[0xaa, 0xaa, u8 (11 + p.length),
          h.OrigSubnetID, h.OrigDeviceID,
          u8 (h.OrigDeviceType.val / 256), u8 h.OrigDeviceType.val,
          u8 (h.Opcode.val / 256), u8 h.Opcode.val,
          h.TargetSubnetID, h.TargetDeviceID] ++ p ++
         [u8 ((crc16 ([u8 (11 + p.length),
              h.OrigSubnetID, h.OrigDeviceID,
              u8 (h.OrigDeviceType.val / 256), u8 h.OrigDeviceType.val,
              u8 (h.Opcode.val / 256), u8 h.Opcode.val,
              h.TargetSubnetID, h.TargetDeviceID] ++ p)).val / 256),
          u8 (crc16 ([u8 (11 + p.length),
              h.OrigSubnetID, h.OrigDeviceID,
              u8 (h.OrigDeviceType.val / 256), u8 h.OrigDeviceType.val,
              u8 (h.Opcode.val / 256), u8 h.Opcode.val,
              h.TargetSubnetID, h.TargetDeviceID] ++ p)).val]]) := by
  rw [WriteFrameRaw_frame]
  simp [MessageHeader.toBytes, putU16]

/-- C3, refuted as stated: for a payload of 245 bytes the frame from the length
byte through the checksum has 256 bytes, and the length byte written is
`uint8(256) = 0`, which is neither 256 nor at least 11. -/
theorem WriteFrameRaw_length_byte_wraps :
    WriteFrameRaw sampleCrc [] sampleHeader (.ok (List.replicate 245 0)) =
      .ok [0xaa :: 0xaa :: 0 :: (sampleHeader.toBytes ++ List.replicate 245 0 ++
        putU16 (sampleCrc (0 :: (sampleHeader.toBytes ++ List.replicate 245 0))))] ∧
    ((0 : Byte) :: (sampleHeader.toBytes ++ List.replicate 245 0 ++
        putU16 (sampleCrc (0 :: (sampleHeader.toBytes ++ List.replicate 245 0))))).length
      = 256 ∧
    ((0 : Byte).val ≠ 1 + 8 + 245 + 2 ∧ ¬ 11 ≤ (0 : Byte).val) := by
  refine ⟨?_, ?_, by decide⟩
  · rw [WriteFrameRaw_frame]
    have e : u8 (11 + (List.replicate 245 (0 : Byte)).length) = 0 := by
      rw [List.length_replicate]; decide
    rw [e]
    rfl
  · simp only [List.length_cons, List.length_append, List.length_replicate, toBytes_length,
      putU16, List.length_nil]

/-- C3 (as amended). For every header and every payload of at most 244 bytes,
the length byte `WriteFrameRaw` writes equals the number of bytes from the
length byte through the checksum inclusive, that is `1 + 8 + len p + 2`, and is
at least 11. -/
theorem WriteFrameRaw_length_byte (crc16 : List Byte → U16) (writer : Writer)
    (h : MessageHeader) (p : List Byte) (hp : p.length ≤ 244) :
    ∃ (L : Byte) (tail : List Byte),
      WriteFrameRaw crc16 writer h (.ok p) = .ok (writer ++ [0xaa :: 0xaa :: L :: tail]) ∧
      L.val = (L :: tail).length ∧ L.val = 1 + 8 + p.length + 2 ∧ 11 ≤ L.val := by
  have hl : (u8 (11 + p.length)).val = 11 + p.length := by
    simp only [u8]; omega
  refine ⟨u8 (11 + p.length), (h.toBytes ++ p) ++
    putU16 (crc16 (u8 (11 + p.length) :: (h.toBytes ++ p))), ?_, ?_, ?_, ?_⟩
  · rw [WriteFrameRaw_frame]; rfl
  · simp [hl, toBytes_length, putU16]; omega
  · omega
  · omega

/-- Witness for C3: the header of the single-channel control example, a four-byte payload. -/
theorem WriteFrameRaw_length_byte_witness :
    ([2, 100, 0, 0] : List Byte).length ≤ 244 ∧
    ∃ (L : Byte) (tail : List Byte),
      WriteFrameRaw sampleCrc [] sampleHeader (.ok [2, 100, 0, 0]) =
        .ok ([] ++ [0xaa :: 0xaa :: L :: tail]) ∧
      L.val = (L :: tail).length ∧ L.val = 1 + 8 + ([2, 100, 0, 0] : List Byte).length + 2 ∧
      11 ≤ L.val :=
  ⟨by decide, WriteFrameRaw_length_byte sampleCrc [] sampleHeader [2, 100, 0, 0] (by decide)⟩

/-- C4. On a finite stream of bytes, ending in end-of-stream and free of
timeouts, in which no two consecutive bytes are both `0xAA`, `ReadSmartbusRaw`
terminates (with `io.EOF` from `ReadSync`, the stream used up) and the state of
the `frameHandler`, whatever handler it is, is the initial one: the handler is
never invoked. -/
theorem ReadSmartbusRaw_without_marker_pair {σ : Type} (crc16 : List Byte → U16)
    (frameHandler : σ → List Byte → σ) (bs : List Byte) (mutex : Mutex) (st : σ)
    (h : ¬ [(0xaa : Byte), 0xaa] <:+: bs) :
    ∃ m1, ReadSmartbusRaw crc16 frameHandler (bs.map Ev.byte) mutex st =
      some ⟨some .EOF, st, m1, []⟩ := by
  obtain ⟨m1, hm⟩ := ReadSync_no_pair bs mutex h
  exact ⟨m1, by simp [ReadSmartbusRaw, ReadSmartbusRawLoop, hm]⟩

/-- Witness for C4: the recording handler on a stream with two separated `0xAA`. -/
theorem ReadSmartbusRaw_without_marker_pair_witness :
    (¬ [(0xaa : Byte), 0xaa] <:+: [0x00, 0xaa, 0x05, 0xaa, 0x0b]) ∧
    ∃ m1, ReadSmartbusRaw sampleCrc recordFrame
        (([0x00, 0xaa, 0x05, 0xaa, 0x0b] : List Byte).map Ev.byte) [] [] =
      some ⟨some .EOF, [], m1, []⟩ :=
  ⟨by decide, ReadSmartbusRaw_without_marker_pair sampleCrc recordFrame
    [0x00, 0xaa, 0x05, 0xaa, 0x0b] [] [] (by decide)⟩

/-- C5. When the stream delivers a length byte `l ≥ 11` and then at least `l - 1`
bytes, `ReadSmartbusFrame` consumes exactly these `l` bytes; it returns the
`l`-byte frame (first byte `l`) with `continue = true` when `crc16` of the first
`l - 2` frame bytes equals the big-endian value of the last two, and
`(nil, true)` otherwise, the stream being left at the byte after the frame in
both cases. -/
theorem ReadSmartbusFrame_reads_frame (crc16 : List Byte → U16) (l : Byte)
    (body : List Byte) (rest : Stream) (hl : 11 ≤ l.val) (hb : body.length = l.val - 1) :
    (l :: body).length = l.val ∧
    ReadSmartbusFrame crc16 (.byte l :: (body.map Ev.byte ++ rest)) =
      if crc16 ((l :: body).take (l.val - 2)) = Uint16 ((l :: body).drop (l.val - 2)) then
        ⟨some (l :: body), true, none, rest⟩
      else ⟨none, true, some .badCrc, rest⟩ :=
  ⟨by simp [hb]; omega, ReadSmartbusFrame_bytes crc16 l body rest hl hb⟩

/-- Witness for C5: an 11-byte frame with a wrong checksum, followed by one byte. -/
theorem ReadSmartbusFrame_reads_frame_witness :
    11 ≤ (11 : Byte).val ∧
    ([1, 2, 3, 4, 5, 6, 7, 8, 0xff, 0xff] : List Byte).length = (11 : Byte).val - 1 ∧
    ((11 :: [1, 2, 3, 4, 5, 6, 7, 8, 0xff, 0xff] : List Byte).length = (11 : Byte).val ∧
    ReadSmartbusFrame sampleCrc
        (.byte 11 :: (([1, 2, 3, 4, 5, 6, 7, 8, 0xff, 0xff] : List Byte).map Ev.byte
          ++ [.byte 0x55])) =
      if sampleCrc ((11 :: [1, 2, 3, 4, 5, 6, 7, 8, 0xff, 0xff] : List Byte).take
            ((11 : Byte).val - 2)) =
          Uint16 ((11 :: [1, 2, 3, 4, 5, 6, 7, 8, 0xff, 0xff] : List Byte).drop
            ((11 : Byte).val - 2)) then
        ⟨some (11 :: [1, 2, 3, 4, 5, 6, 7, 8, 0xff, 0xff]), true, none, [.byte 0x55]⟩
      else ⟨none, true, some .badCrc, [.byte 0x55]⟩) :=
  ⟨by decide, by decide, ReadSmartbusFrame_reads_frame sampleCrc 11
    [1, 2, 3, 4, 5, 6, 7, 8, 0xff, 0xff] [.byte 0x55] (by decide) (by decide)⟩

/-- C6. When the next byte `l` of the stream is below 11, `ReadSmartbusFrame`
returns `(nil, true)` after consuming that byte alone: the stream left is
everything after `l`. -/
theorem ReadSmartbusFrame_short_length (crc16 : List Byte → U16) (l : Byte)
    (rest : Stream) (hl : l.val < 11) :
    ReadSmartbusFrame crc16 (.byte l :: rest) = ⟨none, true, some .tooShort, rest⟩ :=
  ReadSmartbusFrame_tooShort crc16 l rest hl

/-- Witness for C6: length byte 10 followed by two bytes. -/
theorem ReadSmartbusFrame_short_length_witness :
    (10 : Byte).val < 11 ∧
    ReadSmartbusFrame sampleCrc (.byte 10 :: [.byte 1, .byte 2]) =
      ⟨none, true, some .tooShort, [.byte 1, .byte 2]⟩ :=
  ⟨by decide, ReadSmartbusFrame_short_length sampleCrc 10 [.byte 1, .byte 2] (by decide)⟩

/-- C1, refuted as stated. (a) With the header opcode `0x0032` and a message whose
own opcode is `0x0031` (its decoder registered and inverting its serializer),
the frame written carries opcode `0x0031`, and decoding gives a header that
differs from the one passed in. (b) With a 245-byte payload the length byte
written is 0, `ReadSmartbusFrame` rejects the frame as too short and nothing
is decoded. -/
theorem WriteFrame_decode_not_identity :
    ((sampleMessages.recognizedMessages (sampleMessages.Opcode [2, 100, 0, 0])).map
        (fun dec => dec [2, 100, 0, 0]) = some (.ok [2, 100, 0, 0]) ∧
      WriteFrame sampleCrc sampleMessages []
          ⟨{ sampleHeader with Opcode := 0x0032 }, [2, 100, 0, 0]⟩ =
        .ok [[0xaa, 0xaa, 15, 3, 0xfe, 0xff, 0xfe, 0x00, 0x31, 1, 0x1c, 2, 100, 0, 0, 3, 193]] ∧
      ReadSync (([0xaa, 0xaa, 15, 3, 0xfe, 0xff, 0xfe, 0x00, 0x31, 1, 0x1c, 2, 100, 0, 0, 3, 193] :
          List Byte).map Ev.byte) [] =
        (none, ([15, 3, 0xfe, 0xff, 0xfe, 0x00, 0x31, 1, 0x1c, 2, 100, 0, 0, 3, 193] :
          List Byte).map Ev.byte, [.Lock]) ∧
      ReadSmartbusFrame sampleCrc
          (([15, 3, 0xfe, 0xff, 0xfe, 0x00, 0x31, 1, 0x1c, 2, 100, 0, 0, 3, 193] :
            List Byte).map Ev.byte) =
        ⟨some [15, 3, 0xfe, 0xff, 0xfe, 0x00, 0x31, 1, 0x1c, 2, 100, 0, 0, 3, 193],
          true, none, []⟩ ∧
      ParseFrame sampleMessages
          [15, 3, 0xfe, 0xff, 0xfe, 0x00, 0x31, 1, 0x1c, 2, 100, 0, 0, 3, 193] =
        some (.ok ⟨sampleHeader, [2, 100, 0, 0]⟩) ∧
      sampleHeader ≠ { sampleHeader with Opcode := 0x0032 }) ∧
    ((sampleMessages.recognizedMessages (sampleMessages.Opcode (List.replicate 245 0))).map
        (fun dec => dec (List.replicate 245 0)) = some (.ok (List.replicate 245 0)) ∧
      WriteFrame sampleCrc sampleMessages [] ⟨sampleHeader, List.replicate 245 0⟩ =
        .ok [0xaa :: 0xaa :: 0 :: (sampleHeader.toBytes ++ List.replicate 245 0 ++
          putU16 (sampleCrc (0 :: (sampleHeader.toBytes ++ List.replicate 245 0))))] ∧
      ReadSmartbusFrame sampleCrc
          (((0 : Byte) :: (sampleHeader.toBytes ++ List.replicate 245 0 ++
            putU16 (sampleCrc (0 :: (sampleHeader.toBytes ++ List.replicate 245 0))))).map
            Ev.byte) =
        ⟨none, true, some .tooShort,
          (sampleHeader.toBytes ++ List.replicate 245 0 ++
            putU16 (sampleCrc (0 :: (sampleHeader.toBytes ++ List.replicate 245 0)))).map
            Ev.byte⟩) := by
  refine ⟨⟨rfl, rfl, by decide, by decide, rfl, by decide⟩, rfl, ?_, ?_⟩
  · have e : u8 (11 + (List.replicate 245 (0 : Byte)).length) = 0 := by
      rw [List.length_replicate]; decide
    have hw : WriteFrame sampleCrc sampleMessages [] ⟨sampleHeader, List.replicate 245 0⟩ =
        WriteFrameRaw sampleCrc [] sampleHeader (.ok (List.replicate 245 0)) := rfl
    rw [hw, WriteFrameRaw_frame, e]
    rfl
  · rw [List.map_cons]
    exact ReadSmartbusFrame_tooShort sampleCrc 0 _ (by decide)

/-- C1 (as amended). Let `m` be a message whose payload serialization `p` has at
most 244 bytes and whose opcode has a registered decoder that returns `m` on
`p`. Then `WriteFrame(h, m)` writes one slice `0xAA 0xAA frame`; on these bytes
(followed by anything) `ReadSync` returns `nil` with the stream at `frame`,
`ReadSmartbusFrame` returns `frame`, and `ParseFrame frame` is the unit whose
message is `m` and whose header is `h` with the opcode replaced by the opcode
of `m`. -/
theorem WriteFrame_decode_roundtrip {Obj : Type} (crc16 : List Byte → U16) (M : Messages Obj)
    (h : MessageHeader) (m : Obj) (p : List Byte) (dec : List Byte → Except String Obj)
    (rest : Stream) (mutex : Mutex)
    (hmsg : M.isMessage m = true) (hser : writeMsgOf M m = .ok p) (hlen : p.length ≤ 244)
    (hreg : M.recognizedMessages (M.Opcode m) = some dec) (hdec : dec p = .ok m) :
    ∃ frame : List Byte,
      WriteFrame crc16 M [] ⟨h, m⟩ = .ok [0xaa :: 0xaa :: frame] ∧
      ReadSync ((0xaa :: 0xaa :: frame).map Ev.byte ++ rest) mutex =
        (none, frame.map Ev.byte ++ rest, mutex ++ [.Lock]) ∧
      ReadSmartbusFrame crc16 (frame.map Ev.byte ++ rest) = ⟨some frame, true, none, rest⟩ ∧
      ParseFrame M frame = some (.ok ⟨{ h with Opcode := M.Opcode m }, m⟩) := by
  refine ⟨(u8 (11 + p.length) :: (({ h with Opcode := M.Opcode m } : MessageHeader).toBytes ++ p))
    ++ putU16 (crc16 (u8 (11 + p.length) ::
      (({ h with Opcode := M.Opcode m } : MessageHeader).toBytes ++ p))), ?_, ?_, ?_, ?_⟩
  · simp only [WriteFrame, hmsg, if_true, hser]
    rw [WriteFrameRaw_frame]
    rfl
  · simp only [List.map_cons, List.cons_append]
    exact ReadSync_pair _ mutex
  · exact ReadSmartbusFrame_written crc16 _ p rest hlen
  · exact ParseFrame_written M _ p _ _ dec m hreg hdec

/-- Witness for C1: the header of the single-channel control example, a four-byte
message and the sample registry. -/
theorem WriteFrame_decode_roundtrip_witness :
    sampleMessages.isMessage [2, 100, 0, 0] = true ∧
    writeMsgOf sampleMessages [2, 100, 0, 0] = .ok [2, 100, 0, 0] ∧
    ([2, 100, 0, 0] : List Byte).length ≤ 244 ∧
    sampleMessages.recognizedMessages (sampleMessages.Opcode [2, 100, 0, 0]) =
      some (fun payload => .ok payload) ∧
    ∃ frame : List Byte,
      WriteFrame sampleCrc sampleMessages [] ⟨sampleHeader, [2, 100, 0, 0]⟩ =
        .ok [0xaa :: 0xaa :: frame] ∧
      ReadSync ((0xaa :: 0xaa :: frame).map Ev.byte ++ [.byte 0x55]) [] =
        (none, frame.map Ev.byte ++ [.byte 0x55], [] ++ [.Lock]) ∧
      ReadSmartbusFrame sampleCrc (frame.map Ev.byte ++ [.byte 0x55]) =
        ⟨some frame, true, none, [.byte 0x55]⟩ ∧
      ParseFrame sampleMessages frame =
        some (.ok ⟨{ sampleHeader with Opcode := sampleMessages.Opcode [2, 100, 0, 0] },
          [2, 100, 0, 0]⟩) :=
  ⟨rfl, rfl, by decide, rfl,
    WriteFrame_decode_roundtrip sampleCrc sampleMessages sampleHeader [2, 100, 0, 0]
      [2, 100, 0, 0] (fun payload => .ok payload) [.byte 0x55] [] rfl rfl (by decide) rfl rfl⟩

/-- C7, refuted as stated. On `00 AA 05 AA AA 0A`, header `01 .. 08`, checksum
`FF FF`, `ReadSync` drops `00 AA 05` and returns after the pair `AA AA`, but
`ReadSmartbusFrame` then rejects on the length byte `0x0A < 11` ("frame too
short", not "bad crc") and leaves the ten header and checksum bytes unread, so
scanning resumes at the first header byte; with the matching checksum `00 2E`
in place of `FF FF` the outcome is the same. -/
theorem resync_example_rejects_on_length :
    ReadSync (([0x00, 0xaa, 0x05, 0xaa, 0xaa, 0x0a, 1, 2, 3, 4, 5, 6, 7, 8, 0xff, 0xff] :
        List Byte).map Ev.byte) [] =
      (none, ([0x0a, 1, 2, 3, 4, 5, 6, 7, 8, 0xff, 0xff] : List Byte).map Ev.byte,
        [.Lock, .Unlock, .Lock]) ∧
    ReadSmartbusFrame sampleCrc
        (([0x0a, 1, 2, 3, 4, 5, 6, 7, 8, 0xff, 0xff] : List Byte).map Ev.byte) =
      ⟨none, true, some .tooShort,
        ([1, 2, 3, 4, 5, 6, 7, 8, 0xff, 0xff] : List Byte).map Ev.byte⟩ ∧
    sampleCrc [0x0a, 1, 2, 3, 4, 5, 6, 7, 8] = Uint16 [0x00, 0x2e] ∧
    ReadSmartbusFrame sampleCrc
        (([0x0a, 1, 2, 3, 4, 5, 6, 7, 8, 0x00, 0x2e] : List Byte).map Ev.byte) =
      ⟨none, true, some .tooShort,
        ([1, 2, 3, 4, 5, 6, 7, 8, 0x00, 0x2e] : List Byte).map Ev.byte⟩ := by
  decide

/-- C7 (as amended). On `00 AA 05 AA AA 0A` followed by eight header bytes and two
checksum bytes (and then anything), `ReadSync` discards `00 AA 05` (locking and
unlocking around the lone `AA`) and returns at the pair `AA AA` with the mutex
locked; `ReadSmartbusFrame` reads the length byte `0x0A` alone and rejects the
frame as too short, whatever the checksum bytes are; the loop delivers no frame
for it and goes on scanning from the first header byte. When the stream ends
after the checksum the run terminates without any frame delivered. -/
theorem resync_example {σ : Type} (crc16 : List Byte → U16)
    (frameHandler : σ → List Byte → σ) (hd ck : List Byte) (rest : Stream) (mutex : Mutex)
    (st : σ) (hhd : hd.length = 8) (hck : ck.length = 2) :
    ReadSync (([0x00, 0xaa, 0x05, 0xaa, 0xaa, 0x0a] ++ hd ++ ck).map Ev.byte ++ rest) mutex =
      (none, ((0x0a :: hd) ++ ck).map Ev.byte ++ rest, mutex ++ [.Lock, .Unlock, .Lock]) ∧
    ReadSmartbusFrame crc16 (((0x0a :: hd) ++ ck).map Ev.byte ++ rest) =
      ⟨none, true, some .tooShort, (hd ++ ck).map Ev.byte ++ rest⟩ ∧
    ReadSmartbusRaw crc16 frameHandler
        (([0x00, 0xaa, 0x05, 0xaa, 0xaa, 0x0a] ++ hd ++ ck).map Ev.byte ++ rest) mutex st =
      ReadSmartbusRaw crc16 frameHandler ((hd ++ ck).map Ev.byte ++ rest)
        (mutex ++ [.Lock, .Unlock, .Lock, .Unlock]) st ∧
    ∃ r, ReadSmartbusRaw crc16 frameHandler
        (([0x00, 0xaa, 0x05, 0xaa, 0xaa, 0x0a] ++ hd ++ ck).map Ev.byte) mutex st = some r ∧
      r.handler = st := by
  have hsync : ∀ tail : Stream,
      ReadSync (.byte 0x00 :: .byte 0xaa :: .byte 0x05 :: .byte 0xaa :: .byte 0xaa ::
        .byte 0x0a :: tail) mutex =
      (none, .byte 0x0a :: tail, mutex ++ [.Lock, .Unlock, .Lock]) := by
    intro tail
    simp [ReadSync]
  have hframe : ∀ tail : Stream,
      ReadSmartbusFrame crc16 (.byte 0x0a :: tail) = ⟨none, true, some .tooShort, tail⟩ :=
    fun tail => ReadSmartbusFrame_tooShort crc16 0x0a tail (by decide)
  have hloop : ∀ tail : Stream,
      ReadSmartbusRaw crc16 frameHandler
        (.byte 0x00 :: .byte 0xaa :: .byte 0x05 :: .byte 0xaa :: .byte 0xaa ::
          .byte 0x0a :: tail) mutex st =
      ReadSmartbusRaw crc16 frameHandler tail (mutex ++ [.Lock, .Unlock, .Lock, .Unlock]) st := by
    intro tail
    simp only [ReadSmartbusRaw, List.length_cons]
    rw [ReadSmartbusRawLoop_step crc16 frameHandler _ _ _ _ _ st (hsync tail)
      (by rw [hframe])]
    simp only [hframe, List.append_assoc, List.cons_append, List.nil_append]
    refine ReadSmartbusRawLoop_fuel crc16 frameHandler _ _ tail _ st ?_ ?_ <;> omega
  refine ⟨by simpa using hsync _, by simpa using hframe _, by simpa using hloop _, ?_⟩
  have hlen : ((hd ++ ck).map Ev.byte).length < 13 := by simp [hhd, hck]
  have h3 := hloop ((hd ++ ck).map Ev.byte)
  have hsome := ReadSmartbusRawLoop_isSome crc16 frameHandler
    (((hd ++ ck).map Ev.byte).length + 1) ((hd ++ ck).map Ev.byte)
    (mutex ++ [.Lock, .Unlock, .Lock, .Unlock]) st (by omega)
  obtain ⟨r, hr⟩ := Option.isSome_iff_exists.1 hsome
  refine ⟨r, ?_, ReadSmartbusRawLoop_short crc16 frameHandler _ _ _ st r hlen hr⟩
  have e : ([0x00, 0xaa, 0x05, 0xaa, 0xaa, 0x0a] ++ hd ++ ck).map Ev.byte =
      .byte 0x00 :: .byte 0xaa :: .byte 0x05 :: .byte 0xaa :: .byte 0xaa ::
        .byte 0x0a :: (hd ++ ck).map Ev.byte := by simp
  rw [e, h3]
  exact hr

/-- Witness for C7: header `01 .. 08`, checksum `FF FF`, the recording handler. -/
theorem resync_example_witness :
    ([1, 2, 3, 4, 5, 6, 7, 8] : List Byte).length = 8 ∧
    ([0xff, 0xff] : List Byte).length = 2 ∧
    (ReadSync (([0x00, 0xaa, 0x05, 0xaa, 0xaa, 0x0a] ++ [1, 2, 3, 4, 5, 6, 7, 8] ++
        [0xff, 0xff] : List Byte).map Ev.byte ++ []) [] =
      (none, ((0x0a :: [1, 2, 3, 4, 5, 6, 7, 8]) ++ [0xff, 0xff] : List Byte).map Ev.byte ++ [],
        [] ++ [.Lock, .Unlock, .Lock]) ∧
    ReadSmartbusFrame sampleCrc
        (((0x0a :: [1, 2, 3, 4, 5, 6, 7, 8]) ++ [0xff, 0xff] : List Byte).map Ev.byte ++ []) =
      ⟨none, true, some .tooShort,
        ([1, 2, 3, 4, 5, 6, 7, 8] ++ [0xff, 0xff] : List Byte).map Ev.byte ++ []⟩ ∧
    ReadSmartbusRaw sampleCrc recordFrame
        (([0x00, 0xaa, 0x05, 0xaa, 0xaa, 0x0a] ++ [1, 2, 3, 4, 5, 6, 7, 8] ++
          [0xff, 0xff] : List Byte).map Ev.byte ++ []) [] [] =
      ReadSmartbusRaw sampleCrc recordFrame
        (([1, 2, 3, 4, 5, 6, 7, 8] ++ [0xff, 0xff] : List Byte).map Ev.byte ++ [])
        ([] ++ [.Lock, .Unlock, .Lock, .Unlock]) [] ∧
    ∃ r, ReadSmartbusRaw sampleCrc recordFrame
        (([0x00, 0xaa, 0x05, 0xaa, 0xaa, 0x0a] ++ [1, 2, 3, 4, 5, 6, 7, 8] ++
          [0xff, 0xff] : List Byte).map Ev.byte) [] [] = some r ∧
      r.handler = []) :=
  ⟨by decide, by decide,
    resync_example sampleCrc recordFrame [1, 2, 3, 4, 5, 6, 7, 8] [0xff, 0xff] [] [] []
      (by decide) (by decide)⟩

/-- C8, at the failing input `AA, timeout, AA, AA`: after the first `AA` the mutex
is locked, the timeout on the second marker byte restarts the scan without an
`Unlock`, and the next `AA` makes `ReadSync` call `Lock` again; it returns `nil`
after two `Lock` calls and no `Unlock`. -/
theorem ReadSync_relocks_after_timeout :
    ReadSync [.byte 0xaa, .err .timeout, .byte 0xaa, .byte 0xaa] [] =
      (none, [], [.Lock, .Lock]) := by
  decide

/-- C9, at the failing input `AA, timeout, end of stream`: the timeout on the
second marker byte restarts the scan with the mutex still locked, the next read
fails with `io.EOF`, and `ReadSync` returns that error after one `Lock` and no
`Unlock`; `ReadSmartbusRaw` exits in the same state. -/
theorem ReadSync_error_leaves_lock :
    ReadSync [.byte 0xaa, .err .timeout] [] = (some .EOF, [], [.Lock]) ∧
    (ReadSmartbusRaw sampleCrc recordFrame [.byte 0xaa, .err .timeout] [] []).map
        (fun r => (r.err, r.handler, r.mutex, r.rest)) =
      some (some .EOF, [], [.Lock], []) := by
  decide

/-- C10. `ReadSmartbusFrame` returns `continue = false` exactly when the read of
the length byte, or (for a length of at least 11) the read of the frame body,
fails with an error that is not a timeout; a timeout on the length byte or on
the body, a length below 11 and a checksum mismatch each return `(nil, true)`;
a frame is only returned together with `continue = true`; and a stream that
ends in the middle of the body gives `continue = false`. -/
theorem ReadSmartbusFrame_continue (crc16 : List Byte → U16) (s : Stream) :
    ((ReadSmartbusFrame crc16 s).cont = false ↔
      (∃ e, (readByte s).1 = .error e ∧ isTimeout e = false) ∨
      (∃ l e, (readByte s).1 = .ok l ∧ 11 ≤ l.val ∧
        (readFull (l.val - 1) (readByte s).2).1 = .error e ∧ isTimeout e = false)) ∧
    (∀ e, (readByte s).1 = .error e → isTimeout e = true →
      (ReadSmartbusFrame crc16 s).frame = none ∧ (ReadSmartbusFrame crc16 s).cont = true) ∧
    (∀ l, (readByte s).1 = .ok l → l.val < 11 →
      (ReadSmartbusFrame crc16 s).frame = none ∧ (ReadSmartbusFrame crc16 s).cont = true) ∧
    (∀ l e, (readByte s).1 = .ok l → 11 ≤ l.val →
      (readFull (l.val - 1) (readByte s).2).1 = .error e → isTimeout e = true →
      (ReadSmartbusFrame crc16 s).frame = none ∧ (ReadSmartbusFrame crc16 s).cont = true) ∧
    (∀ l body, (readByte s).1 = .ok l → 11 ≤ l.val →
      (readFull (l.val - 1) (readByte s).2).1 = .ok body →
      crc16 ((l :: body).take (l.val - 2)) ≠ Uint16 ((l :: body).drop (l.val - 2)) →
      (ReadSmartbusFrame crc16 s).frame = none ∧ (ReadSmartbusFrame crc16 s).cont = true) ∧
    (∀ f, (ReadSmartbusFrame crc16 s).frame = some f →
      (ReadSmartbusFrame crc16 s).cont = true) ∧
    (∀ (l : Byte) (bs : List Byte), s = .byte l :: bs.map Ev.byte → 11 ≤ l.val →
      bs.length < l.val - 1 → (ReadSmartbusFrame crc16 s).cont = false) := by
  refine ⟨?_, ?_, ?_, ?_, ?_, fun f hf => (ReadSmartbusFrame_some crc16 s f hf).2.2.2.2, ?_⟩
  · cases s with
    | nil => simp [ReadSmartbusFrame, readByte, isTimeout]
    | cons a s1 =>
      cases a with
      | err e =>
        by_cases ht : isTimeout e = true <;> simp [ReadSmartbusFrame, readByte, ht]
      | byte l =>
        by_cases hl : l.val < 11
        · rw [ReadSmartbusFrame_tooShort crc16 l s1 hl]
          simp [readByte]
          intro _ h11; omega
        · have hl11 : 11 ≤ l.val := by omega
          cases hr : readFull (l.val - 1) s1 with
          | mk res s2 =>
            cases res with
            | error e =>
              rw [ReadSmartbusFrame_body_err crc16 l s1 s2 e hl11 hr]
              by_cases ht : isTimeout e = true <;> simp [readByte, hr, ht, hl11]
            | ok body =>
              rw [ReadSmartbusFrame_body_ok crc16 l s1 s2 body hl11 hr]
              split <;> simp [readByte, hr]
  · intro e he ht
    cases s with
    | nil => simp [readByte] at he; subst he; simp [isTimeout] at ht
    | cons a s1 =>
      cases a with
      | err e1 =>
        simp [readByte] at he; subst he
        simp [ReadSmartbusFrame, readByte, ht]
      | byte l => simp [readByte] at he
  · intro l he hl
    cases s with
    | nil => simp [readByte] at he
    | cons a s1 =>
      cases a with
      | err e1 => simp [readByte] at he
      | byte l1 =>
        simp [readByte] at he; subst he
        rw [ReadSmartbusFrame_tooShort crc16 l1 s1 hl]
        exact ⟨rfl, rfl⟩
  · intro l e he hl hr ht
    cases s with
    | nil => simp [readByte] at he
    | cons a s1 =>
      cases a with
      | err e1 => simp [readByte] at he
      | byte l1 =>
        simp [readByte] at he; subst he
        simp only [readByte] at hr
        cases hr2 : readFull (l1.val - 1) s1 with
        | mk res s2 =>
          rw [hr2] at hr
          simp only at hr
          subst hr
          rw [ReadSmartbusFrame_body_err crc16 l1 s1 s2 e hl hr2, ht]
          exact ⟨rfl, rfl⟩
  · intro l body he hl hr hc
    cases s with
    | nil => simp [readByte] at he
    | cons a s1 =>
      cases a with
      | err e1 => simp [readByte] at he
      | byte l1 =>
        simp [readByte] at he; subst he
        simp only [readByte] at hr
        cases hr2 : readFull (l1.val - 1) s1 with
        | mk res s2 =>
          rw [hr2] at hr
          simp only at hr
          subst hr
          have hok := readFullFrom_ok 0 (l1.val - 1) s1 body s2 hr2
          have hlen : (l1 :: body).length = l1.val := by simp [hok.2]; omega
          rw [ReadSmartbusFrame_body_ok crc16 l1 s1 s2 body hl hr2, hlen, if_neg hc]
          exact ⟨rfl, rfl⟩
  · intro l bs hs hl hlen
    subst hs
    obtain ⟨e, he, ht⟩ := readFullFrom_eof bs 0 (l.val - 1) hlen
    rw [ReadSmartbusFrame_body_err crc16 l _ _ e hl he, ht]
    rfl

/-- C12. For every byte sequence `g`, `WritePreBuiltFrame` passes the writer, in
one `Write` call, `0xAA 0xAA` followed by `g` unchanged; and when `f` is a frame
that `ReadSmartbusFrame` returned, `ReadSync` followed by `ReadSmartbusFrame` on
the bytes written for `f` (followed by anything) returns `f` again. -/
theorem WritePreBuiltFrame_relay (crc16 : List Byte → U16) (s rest : Stream)
    (f : List Byte) (mutex : Mutex) (hf : (ReadSmartbusFrame crc16 s).frame = some f) :
    (∀ (writer : Writer) (g : List Byte),
      WritePreBuiltFrame writer g = writer ++ [0xaa :: 0xaa :: g]) ∧
    ∃ out : List Byte, WritePreBuiltFrame [] f = [out] ∧
      ReadSync (out.map Ev.byte ++ rest) mutex =
        (none, f.map Ev.byte ++ rest, mutex ++ [.Lock]) ∧
      ReadSmartbusFrame crc16 (f.map Ev.byte ++ rest) = ⟨some f, true, none, rest⟩ := by
  refine ⟨fun writer g => rfl, 0xaa :: 0xaa :: f, rfl, ?_, ?_⟩
  · simp only [List.map_cons, List.cons_append]
    exact ReadSync_pair _ mutex
  · exact ReadSmartbusFrame_again crc16 s rest f hf

/-- Witness for C12: a 15-byte frame with a valid checksum, read and relayed. -/
theorem WritePreBuiltFrame_relay_witness :
    (ReadSmartbusFrame sampleCrc
        (([15, 3, 0xfe, 0xff, 0xfe, 0x00, 0x31, 1, 0x1c, 2, 100, 0, 0, 3, 193] :
          List Byte).map Ev.byte)).frame =
      some [15, 3, 0xfe, 0xff, 0xfe, 0x00, 0x31, 1, 0x1c, 2, 100, 0, 0, 3, 193] ∧
    ((∀ (writer : Writer) (g : List Byte),
      WritePreBuiltFrame writer g = writer ++ [0xaa :: 0xaa :: g]) ∧
    ∃ out : List Byte,
      WritePreBuiltFrame []
          [15, 3, 0xfe, 0xff, 0xfe, 0x00, 0x31, 1, 0x1c, 2, 100, 0, 0, 3, 193] = [out] ∧
      ReadSync (out.map Ev.byte ++ [.byte 0x55]) [] =
        (none, ([15, 3, 0xfe, 0xff, 0xfe, 0x00, 0x31, 1, 0x1c, 2, 100, 0, 0, 3, 193] :
          List Byte).map Ev.byte ++ [.byte 0x55], [] ++ [.Lock]) ∧
      ReadSmartbusFrame sampleCrc
          (([15, 3, 0xfe, 0xff, 0xfe, 0x00, 0x31, 1, 0x1c, 2, 100, 0, 0, 3, 193] :
            List Byte).map Ev.byte ++ [.byte 0x55]) =
        ⟨some [15, 3, 0xfe, 0xff, 0xfe, 0x00, 0x31, 1, 0x1c, 2, 100, 0, 0, 3, 193],
          true, none, [.byte 0x55]⟩) :=
  ⟨by decide, WritePreBuiltFrame_relay sampleCrc
    (([15, 3, 0xfe, 0xff, 0xfe, 0x00, 0x31, 1, 0x1c, 2, 100, 0, 0, 3, 193] :
      List Byte).map Ev.byte) [.byte 0x55]
    [15, 3, 0xfe, 0xff, 0xfe, 0x00, 0x31, 1, 0x1c, 2, 100, 0, 0, 3, 193] [] (by decide)⟩

/-- C13. For a message `m` whose payload serializes, the slice `WriteFrame` writes
is the same for every value of the header's `Opcode` field, the other header
fields being fixed; its bytes at offsets 7 and 8 (the markers counted) are the
opcode of `m`, big-endian. The header passed in is a value: the opcode is set
in a copy, and nothing is written back to the caller. -/
theorem WriteFrame_header_opcode_ignored {Obj : Type} (crc16 : List Byte → U16)
    (M : Messages Obj) (writer : Writer) (h : MessageHeader) (m : Obj) (p : List Byte)
    (hmsg : M.isMessage m = true) (hser : writeMsgOf M m = .ok p) :
    ∃ out : List Byte,
      (∀ opcode : U16,
        WriteFrame crc16 M writer ⟨{ h with Opcode := opcode }, m⟩ = .ok (writer ++ [out])) ∧
      out[7]? = some (u8 ((M.Opcode m).val / 256)) ∧
      out[8]? = some (u8 (M.Opcode m).val) := by
  refine ⟨0xaa :: 0xaa :: ((u8 (11 + p.length) ::
      (({ h with Opcode := M.Opcode m } : MessageHeader).toBytes ++ p)) ++
      putU16 (crc16 (u8 (11 + p.length) ::
        (({ h with Opcode := M.Opcode m } : MessageHeader).toBytes ++ p)))), ?_, ?_, ?_⟩
  · intro opcode
    rw [WriteFrame_eq_raw crc16 M writer _ m hmsg, hser, WriteFrameRaw_frame]
  · simp [MessageHeader.toBytes, putU16]
  · simp [MessageHeader.toBytes, putU16]

/-- Witness for C13: the sample registry and a four-byte payload. -/
theorem WriteFrame_header_opcode_ignored_witness :
    sampleMessages.isMessage [2, 100, 0, 0] = true ∧
    writeMsgOf sampleMessages [2, 100, 0, 0] = .ok [2, 100, 0, 0] ∧
    ∃ out : List Byte,
      (∀ opcode : U16,
        WriteFrame sampleCrc sampleMessages [] ⟨{ sampleHeader with Opcode := opcode },
          [2, 100, 0, 0]⟩ = .ok ([] ++ [out])) ∧
      out[7]? = some (u8 ((sampleMessages.Opcode [2, 100, 0, 0]).val / 256)) ∧
      out[8]? = some (u8 (sampleMessages.Opcode [2, 100, 0, 0]).val) :=
  ⟨rfl, rfl, WriteFrame_header_opcode_ignored sampleCrc sampleMessages [] sampleHeader
    [2, 100, 0, 0] [2, 100, 0, 0] rfl rfl⟩

/-- C17. On a stream of bytes, without timeouts or errors, that contains two
consecutive `0xAA`, `ReadSync` returns `nil` having consumed exactly the bytes
up to and including the leftmost adjacent pair `0xAA 0xAA`: the stream is left
at the byte after the pair, everything before it is discarded, and the mutex
has received some `Lock, Unlock` pairs (one for each lone `0xAA` read as a first
marker) and then one `Lock`. -/
theorem ReadSync_first_marker_pair (bs : List Byte) (mutex : Mutex)
    (h : [(0xaa : Byte), 0xaa] <:+: bs) :
    ∃ (pre post : List Byte) (k : Nat),
      bs = pre ++ 0xaa :: 0xaa :: post ∧
      ¬ [(0xaa : Byte), 0xaa] <:+: pre ++ [0xaa] ∧
      ReadSync (bs.map Ev.byte) mutex =
        (none, post.map Ev.byte,
          mutex ++ (List.replicate k [MutexOp.Lock, MutexOp.Unlock]).flatten ++ [.Lock]) := by
  obtain ⟨pre, post, hbs, hno⟩ := leftmost_pair_split bs h
  obtain ⟨m1, hm⟩ := ReadSync_leftmost_pair pre post [] mutex hno
  obtain ⟨k, hk⟩ := ReadSync_bytes_mutex bs mutex
  rw [List.append_nil, List.append_nil, ← hbs] at hm
  rw [hm] at hk
  simp only [if_true] at hk
  exact ⟨pre, post, k, hbs, hno, by rw [hm, hk]⟩

/-- Witness for C17: a lone `0xAA` and the byte after it precede the pair. -/
theorem ReadSync_first_marker_pair_witness :
    [(0xaa : Byte), 0xaa] <:+: [0x00, 0xaa, 0x05, 0xaa, 0xaa, 0xaa, 0x0b] ∧
    ∃ (pre post : List Byte) (k : Nat),
      ([0x00, 0xaa, 0x05, 0xaa, 0xaa, 0xaa, 0x0b] : List Byte) = pre ++ 0xaa :: 0xaa :: post ∧
      ¬ [(0xaa : Byte), 0xaa] <:+: pre ++ [0xaa] ∧
      ReadSync (([0x00, 0xaa, 0x05, 0xaa, 0xaa, 0xaa, 0x0b] : List Byte).map Ev.byte) [] =
        (none, post.map Ev.byte,
          [] ++ (List.replicate k [MutexOp.Lock, MutexOp.Unlock]).flatten ++ [.Lock]) :=
  ⟨by decide, ReadSync_first_marker_pair [0x00, 0xaa, 0x05, 0xaa, 0xaa, 0xaa, 0x0b] []
    (by decide)⟩

/-- C19. On every stream `ReadSmartbusRaw` terminates, and every frame it passed to
`frameHandler` has its first byte equal to its length, a length between 11 and
255, and last two bytes equal, big-endian, to `crc16` of the bytes before them.
For such a frame the slice `frame[1 : len(frame)-2]` of `ParseFrame` is in
bounds and holds at least 8 bytes, the header read succeeds, and `ParseFrame`
returns the decoded unit unless the opcode is not registered or the payload
decoder returns an error. -/
theorem delivered_frames_parse {Obj : Type} (crc16 : List Byte → U16) (M : Messages Obj)
    (s : Stream) (mutex : Mutex) :
    ∃ r, ReadSmartbusRaw crc16 recordFrame s mutex [] = some r ∧
      ∀ f ∈ r.handler,
        (∃ l body, f = l :: body ∧ l.val = f.length) ∧
        11 ≤ f.length ∧ f.length ≤ 255 ∧
        (f.drop (f.length - 2)).length = 2 ∧
        Uint16 (f.drop (f.length - 2)) = crc16 (f.take (f.length - 2)) ∧
        1 ≤ f.length - 2 ∧ f.length - 2 ≤ f.length ∧
        8 ≤ ((f.take (f.length - 2)).drop 1).length ∧
        ∃ hdr payload, readHeader ((f.take (f.length - 2)).drop 1) = .ok (hdr, payload) ∧
          ParseFrame M f =
            match M.recognizedMessages hdr.Opcode with
            | none => some (.error (.opcodeNotRecognized hdr.Opcode))
            | some msgParser =>
              match msgParser payload with
              | .error e => some (.error (.payload e))
              | .ok msg => some (.ok ⟨hdr, msg⟩) := by
  obtain ⟨r, hr⟩ := ReadSmartbusRaw_total crc16 recordFrame s mutex []
  refine ⟨r, hr, ?_⟩
  intro f hf
  obtain ⟨h11, ⟨l, body, hlb, hl⟩, hcrc⟩ := recorded_frames_well_formed crc16 s mutex r hr f hf
  obtain ⟨h8, hdr, payload, hh, _, hp⟩ := ParseFrame_of_length M f h11
  have h255 : f.length ≤ 255 := by
    have := l.isLt
    omega
  refine ⟨⟨l, body, hlb, hl⟩, h11, h255, ?_, hcrc.symm, by omega, by omega, h8,
    hdr, payload, hh, hp⟩
  simp only [List.length_drop]
  omega

/-- C18. Let the stream consist of garbage bytes none of which is `0xAA`, followed
by the slices `WriteFrameRaw` writes, one after the other, for a list of
(header, payload) pairs with payloads of at most 244 bytes, and then end. Then
`ReadSmartbusRaw` calls `frameHandler` once per pair, in order, each time with
that pair's slice minus the two markers, and exits with `io.EOF` from `ReadSync`
and the stream used up. -/
theorem ReadSmartbusRaw_written_stream {σ : Type} (crc16 : List Byte → U16)
    (frameHandler : σ → List Byte → σ) (garbage : List Byte)
    (pairs : List (MessageHeader × List Byte)) (mutex : Mutex) (st : σ)
    (hg : (0xaa : Byte) ∉ garbage) (hp : ∀ hp ∈ pairs, hp.2.length ≤ 244) :
    ∃ (ws : Writer) (m1 : Mutex),
      List.foldlM (fun w hp => WriteFrameRaw crc16 w hp.1 (.ok hp.2)) [] pairs = .ok ws ∧
      ws.length = pairs.length ∧
      ReadSmartbusRaw crc16 frameHandler ((garbage ++ ws.flatten).map Ev.byte) mutex st =
        some ⟨some .EOF, (ws.map (List.drop 2)).foldl frameHandler st, m1, []⟩ := by
  obtain ⟨fs, hw, hl, hread⟩ := WriteFrameRaw_all crc16 pairs [] hp
  have hdrop : (fs.map (fun f => (0xaa : Byte) :: 0xaa :: f)).map (List.drop 2) = fs := by
    rw [List.map_map]
    exact List.map_id fs
  obtain ⟨m1, hm⟩ := ReadSmartbusRawLoop_frames crc16 frameHandler fs hread
    (((garbage ++ (fs.map (fun f => (0xaa : Byte) :: 0xaa :: f)).flatten).map Ev.byte).length + 1)
    mutex st (by simp only [List.map_append, List.length_append]; omega)
  refine ⟨fs.map (fun f => (0xaa : Byte) :: 0xaa :: f), m1, by simpa using hw, by simp [hl], ?_⟩
  rw [hdrop, ← hm]
  unfold ReadSmartbusRaw
  apply ReadSmartbusRawLoop_congr
  rw [List.map_append]
  exact ReadSync_skip_garbage garbage _ mutex hg

/-- Witness for C18: two garbage bytes, then a frame with a four-byte payload and
a frame with an empty payload, read with the recording handler. -/
theorem ReadSmartbusRaw_written_stream_witness :
    (0xaa : Byte) ∉ ([0x00, 0x05] : List Byte) ∧
    (∀ hp ∈ [(sampleHeader, ([2, 100, 0, 0] : List Byte)), (sampleHeader, [])],
      hp.2.length ≤ 244) ∧
    ∃ (ws : Writer) (m1 : Mutex),
      List.foldlM (fun w hp => WriteFrameRaw sampleCrc w hp.1 (.ok hp.2)) []
        [(sampleHeader, ([2, 100, 0, 0] : List Byte)), (sampleHeader, [])] = .ok ws ∧
      ws.length = [(sampleHeader, ([2, 100, 0, 0] : List Byte)), (sampleHeader, [])].length ∧
      ReadSmartbusRaw sampleCrc recordFrame (([0x00, 0x05] ++ ws.flatten).map Ev.byte) [] [] =
        some ⟨some .EOF, (ws.map (List.drop 2)).foldl recordFrame [], m1, []⟩ :=
  ⟨by decide, by decide,
    ReadSmartbusRaw_written_stream sampleCrc recordFrame [0x00, 0x05]
      [(sampleHeader, [2, 100, 0, 0]), (sampleHeader, [])] [] [] (by decide) (by decide)⟩

/-- C14. With the header `{3, 0xFE, 0xFFFE, 0x0031, 1, 0x1C}` and a payload `p` of
the size of the single-channel control command's, `WriteFrameRaw` writes one
slice of 21 bytes, markers included, whose length byte is 19 (`0x13`), being 11
plus the payload size in a slice of 13 plus the payload size; `ReadSync` and
`ReadSmartbusFrame` read the frame back from it, the header read of `ParseFrame`
gives the header and leaves exactly `p`, and `ParseFrame` hands `p` to the
decoder registered for `0x0031` and returns its message with that header. -/
theorem single_channel_control_frame {Obj : Type} (crc16 : List Byte → U16)
    (M : Messages Obj) (p : List Byte) (dec : List Byte → Except String Obj)
    (rest : Stream) (mutex : Mutex)
    (hp : p.length = singleChannelControlPayloadSize)
    (hreg : M.recognizedMessages 0x0031 = some dec) :
    ∃ frame : List Byte,
      WriteFrameRaw crc16 [] ⟨3, 0xfe, 0xfffe, 0x0031, 1, 0x1c⟩ (.ok p) =
        .ok [0xaa :: 0xaa :: frame] ∧
      frame.head? = some 0x13 ∧ (0xaa :: 0xaa :: frame).length = 21 ∧
      frame.head? = some (u8 (11 + p.length)) ∧
      (0xaa :: 0xaa :: frame).length = 13 + p.length ∧
      ReadSync ((0xaa :: 0xaa :: frame).map Ev.byte ++ rest) mutex =
        (none, frame.map Ev.byte ++ rest, mutex ++ [.Lock]) ∧
      ReadSmartbusFrame crc16 (frame.map Ev.byte ++ rest) = ⟨some frame, true, none, rest⟩ ∧
      readHeader ((frame.take (frame.length - 2)).drop 1) =
        .ok (⟨3, 0xfe, 0xfffe, 0x0031, 1, 0x1c⟩, p) ∧
      ParseFrame M frame =
        match dec p with
        | .error e => some (.error (.payload e))
        | .ok msg => some (.ok ⟨⟨3, 0xfe, 0xfffe, 0x0031, 1, 0x1c⟩, msg⟩) := by
  have hp8 : p.length = 8 := hp
  have h8 := toBytes_length ⟨3, 0xfe, 0xfffe, 0x0031, 1, 0x1c⟩
  have hL : u8 (11 + p.length) = 0x13 := by rw [hp8]; decide
  have htake : ∀ (l : Byte) (c : U16),
      ((((l :: ((⟨3, 0xfe, 0xfffe, 0x0031, 1, 0x1c⟩ : MessageHeader).toBytes ++ p)) ++
        putU16 c).take (((l :: ((⟨3, 0xfe, 0xfffe, 0x0031, 1, 0x1c⟩ :
          MessageHeader).toBytes ++ p)) ++ putU16 c).length - 2)).drop 1) =
        (⟨3, 0xfe, 0xfffe, 0x0031, 1, 0x1c⟩ : MessageHeader).toBytes ++ p := by
    intro l c
    have hlen : ((l :: ((⟨3, 0xfe, 0xfffe, 0x0031, 1, 0x1c⟩ : MessageHeader).toBytes ++ p)) ++
        putU16 c).length - 2 =
        (l :: ((⟨3, 0xfe, 0xfffe, 0x0031, 1, 0x1c⟩ : MessageHeader).toBytes ++ p)).length := by
      simp [putU16]; omega
    rw [hlen, List.take_left' rfl]
    rfl
  refine ⟨(u8 (11 + p.length) :: ((⟨3, 0xfe, 0xfffe, 0x0031, 1, 0x1c⟩ :
      MessageHeader).toBytes ++ p)) ++ putU16 (crc16 (u8 (11 + p.length) ::
      ((⟨3, 0xfe, 0xfffe, 0x0031, 1, 0x1c⟩ : MessageHeader).toBytes ++ p))),
    ?_, ?_, ?_, ?_, ?_, ?_, ?_, ?_, ?_⟩
  · rw [WriteFrameRaw_frame]; rfl
  · simp [hL]
  · simp [h8, hp8, putU16]
  · simp
  · simp [h8, putU16]; omega
  · simp only [List.map_cons, List.cons_append]
    exact ReadSync_pair _ mutex
  · exact ReadSmartbusFrame_written crc16 _ p rest (by omega)
  · rw [htake, readHeader_toBytes]
  · have h3 : ¬ ((u8 (11 + p.length) :: ((⟨3, 0xfe, 0xfffe, 0x0031, 1, 0x1c⟩ :
        MessageHeader).toBytes ++ p)) ++ putU16 (crc16 (u8 (11 + p.length) ::
        ((⟨3, 0xfe, 0xfffe, 0x0031, 1, 0x1c⟩ : MessageHeader).toBytes ++ p)))).length < 3 := by
      simp [h8, putU16]; omega
    simp only [ParseFrame, h3, if_false, htake, readHeader_toBytes, hreg]

/-- Witness for C14: eight payload bytes and the sample registry. -/
theorem single_channel_control_frame_witness :
    ([2, 100, 0, 0, 0, 0, 0, 0] : List Byte).length = singleChannelControlPayloadSize ∧
    sampleMessages.recognizedMessages 0x0031 = some (fun payload => .ok payload) ∧
    ∃ frame : List Byte,
      WriteFrameRaw sampleCrc [] ⟨3, 0xfe, 0xfffe, 0x0031, 1, 0x1c⟩
          (.ok [2, 100, 0, 0, 0, 0, 0, 0]) = .ok [0xaa :: 0xaa :: frame] ∧
      frame.head? = some 0x13 ∧ (0xaa :: 0xaa :: frame).length = 21 ∧
      frame.head? = some (u8 (11 + ([2, 100, 0, 0, 0, 0, 0, 0] : List Byte).length)) ∧
      (0xaa :: 0xaa :: frame).length = 13 + ([2, 100, 0, 0, 0, 0, 0, 0] : List Byte).length ∧
      ReadSync ((0xaa :: 0xaa :: frame).map Ev.byte ++ []) [] =
        (none, frame.map Ev.byte ++ [], [] ++ [.Lock]) ∧
      ReadSmartbusFrame sampleCrc (frame.map Ev.byte ++ []) = ⟨some frame, true, none, []⟩ ∧
      readHeader ((frame.take (frame.length - 2)).drop 1) =
        .ok (⟨3, 0xfe, 0xfffe, 0x0031, 1, 0x1c⟩, [2, 100, 0, 0, 0, 0, 0, 0]) ∧
      ParseFrame sampleMessages frame =
        match (fun payload => Except.ok payload : List Byte → Except String (List Byte))
            [2, 100, 0, 0, 0, 0, 0, 0] with
        | .error e => some (.error (.payload e))
        | .ok msg => some (.ok ⟨⟨3, 0xfe, 0xfffe, 0x0031, 1, 0x1c⟩, msg⟩) :=
  ⟨rfl, rfl, single_channel_control_frame sampleCrc sampleMessages
    [2, 100, 0, 0, 0, 0, 0, 0] (fun payload => .ok payload) [] [] rfl rfl⟩

/-- C20, refuted as stated. A `SmartbusMessage` whose `Message` does not implement
`Message` makes `WriteFrame` abort at the type assertion, although neither
`ToRaw` (absent for this value) nor `WriteMessage` returns an error. -/
theorem WriteFrame_aborts_without_error :
    WriteFrame sampleCrc optionMessages [] ⟨sampleHeader, none⟩ = .error .typeAssertion ∧
    optionMessages.ToRaw none = none ∧
    optionMessages.WriteMessage none = .ok [] := by
  exact ⟨rfl, rfl, rfl⟩

/-- C20 (as amended). `WriteFrame` aborts exactly when the `Message` value does not
implement `Message`, or its `ToRaw` returns an error, or `WriteMessage` (on the
result of `ToRaw` when there is one, on the message otherwise) returns an
error. An abort is the result `error`: the call `writer.Write`, last statement
of `WriteFrameRaw`, is not reached and the writer has received nothing.
Otherwise the writer has received exactly one more slice, the complete frame
from the markers through the checksum. -/
theorem WriteFrame_abort_or_whole_frame {Obj : Type} (crc16 : List Byte → U16)
    (M : Messages Obj) (writer : Writer) (fullMsg : SmartbusMessage Obj) :
    ((∃ panic, WriteFrame crc16 M writer fullMsg = .error panic) ↔
      (M.isMessage fullMsg.Message = false ∨
        (∃ e, M.ToRaw fullMsg.Message = some (.error e)) ∨
        (∃ pre e, M.ToRaw fullMsg.Message = some (.ok pre) ∧ M.WriteMessage pre = .error e) ∨
        (∃ e, M.ToRaw fullMsg.Message = none ∧ M.WriteMessage fullMsg.Message = .error e))) ∧
    ((∃ panic, WriteFrame crc16 M writer fullMsg = .error panic) ∨
      ∃ p : List Byte, writeMsgOf M fullMsg.Message = .ok p ∧
        WriteFrame crc16 M writer fullMsg =
          .ok (writer ++ [0xaa :: 0xaa :: ((u8 (11 + p.length) ::
            (({ fullMsg.Header with Opcode := M.Opcode fullMsg.Message } :
              MessageHeader).toBytes ++ p)) ++
            putU16 (crc16 (u8 (11 + p.length) ::
              (({ fullMsg.Header with Opcode := M.Opcode fullMsg.Message } :
                MessageHeader).toBytes ++ p))))])) := by
  obtain ⟨h, m⟩ := fullMsg
  by_cases hmsg : M.isMessage m = true
  · have hw := WriteFrame_eq_raw crc16 M writer h m hmsg
    simp only [hw]
    cases hraw : M.ToRaw m with
    | none =>
      cases hwm : M.WriteMessage m with
      | error e =>
        have hs : writeMsgOf M m = .error (.writeMessageFailed e) := by
          simp [writeMsgOf, hraw, hwm]
        simp [hs, WriteFrameRaw, hmsg, hwm]
      | ok p =>
        have hs : writeMsgOf M m = .ok p := by simp [writeMsgOf, hraw, hwm]
        rw [hs, WriteFrameRaw_frame]
        simp [hmsg, hwm]
    | some res =>
      cases res with
      | error e =>
        have hs : writeMsgOf M m = .error (.writeMessageFailed e) := by
          simp [writeMsgOf, hraw]
        simp [hs, WriteFrameRaw, hmsg]
      | ok pre =>
        cases hwm : M.WriteMessage pre with
        | error e =>
          have hs : writeMsgOf M m = .error (.writeMessageFailed e) := by
            simp [writeMsgOf, hraw, hwm]
          simp [hs, WriteFrameRaw, hmsg, hwm]
        | ok p =>
          have hs : writeMsgOf M m = .ok p := by simp [writeMsgOf, hraw, hwm]
          rw [hs, WriteFrameRaw_frame]
          simp [hmsg, hwm]
  · simp only [Bool.not_eq_true] at hmsg
    simp [WriteFrame, hmsg]

/-- C11. Let the stream carry, after a marker pair, a frame `f` (first byte its
length, at least 11, checksum matching) whose header opcode has no entry in
`recognizedMessages`. Then `ParseFrame f` returns the error `opcode not
recognized` and no message, and `ReadSmartbus` on that stream is `ReadSmartbus`
on the rest of the stream, entered with `f` appended to `rawReadCh` (when that
channel is not `nil`), `ch` as it was and one more printed error. The run ends
as the run that merely records the frames of the rest does (same error, mutex
calls and stream left), `rawReadCh` has received `f` and then the frames of
the rest, and `ch` is closed. With any other registry, under which `f` may
decode, the run ends the same way and sends the same frames on `rawReadCh`. -/
theorem ReadSmartbus_unknown_opcode {Obj : Type} (crc16 : List Byte → U16)
    (M : Messages Obj) (l : Byte) (body : List Byte) (rest : Stream) (mutex : Mutex)
    (c : Channels Obj)
    (hl : 11 ≤ l.val) (hb : body.length = l.val - 1)
    (hcrc : crc16 ((l :: body).take (l.val - 2)) = Uint16 ((l :: body).drop (l.val - 2)))
    (hunk : M.recognizedMessages (Uint16 (((l :: body).drop 5).take 2)) = none)
    (hc : c.panicked = false) :
    ParseFrame M (l :: body) =
      some (.error (.opcodeNotRecognized (Uint16 (((l :: body).drop 5).take 2)))) ∧
    ReadSmartbus crc16 M
        (.byte 0xaa :: .byte 0xaa :: ((l :: body).map Ev.byte ++ rest)) mutex c =
      ReadSmartbus crc16 M rest (mutex ++ [.Lock, .Unlock])
        { c with rawReadCh := c.rawReadCh.map (fun q => q ++ [l :: body]),
                 errors := c.errors ++
                   [.opcodeNotRecognized (Uint16 (((l :: body).drop 5).take 2))] } ∧
    ∃ r0 r,
      ReadSmartbusRaw crc16 recordFrame rest (mutex ++ [.Lock, .Unlock]) [] = some r0 ∧
      ReadSmartbus crc16 M
        (.byte 0xaa :: .byte 0xaa :: ((l :: body).map Ev.byte ++ rest)) mutex c = some r ∧
      r.err = r0.err ∧ r.mutex = r0.mutex ∧ r.rest = r0.rest ∧
      r.handler.rawReadCh = c.rawReadCh.map (fun q => q ++ (l :: body) :: r0.handler) ∧
      r.handler.panicked = false ∧ r.handler.closed = true ∧
      r.handler.ch.length + r.handler.errors.length =
        c.ch.length + c.errors.length + 1 + r0.handler.length ∧
      ∀ (Obj2 : Type) (M2 : Messages Obj2) (c2 : Channels Obj2),
        c2.panicked = false → c2.rawReadCh = c.rawReadCh →
        ∃ r2, ReadSmartbus crc16 M2
            (.byte 0xaa :: .byte 0xaa :: ((l :: body).map Ev.byte ++ rest)) mutex c2 =
            some r2 ∧
          r2.err = r.err ∧ r2.mutex = r.mutex ∧ r2.rest = r.rest ∧
          r2.handler.rawReadCh = r.handler.rawReadCh := by
  have h11 : 11 ≤ (l :: body).length := by simp [hb]; omega
  obtain ⟨_, hdr, payload, _, hop, hp⟩ := ParseFrame_of_length M (l :: body) h11
  rw [← hop] at hunk ⊢
  have hparse : ParseFrame M (l :: body) = some (.error (.opcodeNotRecognized hdr.Opcode)) := by
    rw [hp, hunk]
  have hstep : readHandler M c (l :: body) =
      { c with rawReadCh := c.rawReadCh.map (fun q => q ++ [l :: body]),
               errors := c.errors ++ [.opcodeNotRecognized hdr.Opcode] } := by
    simp only [readHandler, hc, Bool.false_eq_true, if_false, hparse]
  obtain ⟨r0, h0⟩ := ReadSmartbusRaw_total crc16 recordFrame rest (mutex ++ [.Lock, .Unlock]) []
  obtain ⟨r, hr, he, hm, hrest, hraw, hpan, hcl, hcount⟩ :=
    ReadSmartbus_after_frame crc16 M l body rest mutex c r0 hl hb hcrc hc h0
  refine ⟨hparse, ?_, r0, r, h0, hr, he, hm, hrest, hraw, hpan, hcl, hcount, ?_⟩
  · rw [ReadSmartbus_frame_step crc16 M l body rest mutex c hl hb hcrc, hstep]
  · intro Obj2 M2 c2 hc2 hraw2
    obtain ⟨r2, hr2, he2, hm2, hrest2, hraw2b, _, _, _⟩ :=
      ReadSmartbus_after_frame crc16 M2 l body rest mutex c2 r0 hl hb hcrc hc2 h0
    exact ⟨r2, hr2, by rw [he2, he], by rw [hm2, hm], by rw [hrest2, hrest],
      by rw [hraw2b, hraw, hraw2]⟩

/-- Witness for C11: a registry without entries, a raw channel configured, and
the stream `AA AA`, a 15-byte frame with opcode `0x0031`, one more byte. -/
theorem ReadSmartbus_unknown_opcode_witness :
    11 ≤ (15 : Byte).val ∧
    ([3, 0xfe, 0xff, 0xfe, 0x00, 0x31, 1, 0x1c, 2, 100, 0, 0, 3, 193] : List Byte).length =
      (15 : Byte).val - 1 ∧
    sampleCrc ((15 :: [3, 0xfe, 0xff, 0xfe, 0x00, 0x31, 1, 0x1c, 2, 100, 0, 0, 3, 193] :
        List Byte).take ((15 : Byte).val - 2)) =
      Uint16 ((15 :: [3, 0xfe, 0xff, 0xfe, 0x00, 0x31, 1, 0x1c, 2, 100, 0, 0, 3, 193] :
        List Byte).drop ((15 : Byte).val - 2)) ∧
    optionMessages.recognizedMessages
      (Uint16 (((15 :: [3, 0xfe, 0xff, 0xfe, 0x00, 0x31, 1, 0x1c, 2, 100, 0, 0, 3, 193] :
        List Byte).drop 5).take 2)) = none ∧
    (⟨[], some [], [], false, false⟩ : Channels (Option (List Byte))).panicked = false ∧
    (ParseFrame optionMessages
        (15 :: [3, 0xfe, 0xff, 0xfe, 0x00, 0x31, 1, 0x1c, 2, 100, 0, 0, 3, 193]) =
      some (.error (.opcodeNotRecognized
        (Uint16 (((15 :: [3, 0xfe, 0xff, 0xfe, 0x00, 0x31, 1, 0x1c, 2, 100, 0, 0, 3, 193] :
          List Byte).drop 5).take 2)))) ∧
    ReadSmartbus sampleCrc optionMessages
        (.byte 0xaa :: .byte 0xaa ::
          ((15 :: [3, 0xfe, 0xff, 0xfe, 0x00, 0x31, 1, 0x1c, 2, 100, 0, 0, 3, 193] :
            List Byte).map Ev.byte ++ [.byte 0x55])) [] ⟨[], some [], [], false, false⟩ =
      ReadSmartbus sampleCrc optionMessages [.byte 0x55] ([] ++ [.Lock, .Unlock])
        { (⟨[], some [], [], false, false⟩ : Channels (Option (List Byte))) with
          rawReadCh := (some [] : Option (List (List Byte))).map (fun q => q ++
            [15 :: [3, 0xfe, 0xff, 0xfe, 0x00, 0x31, 1, 0x1c, 2, 100, 0, 0, 3, 193]]),
          errors := [] ++ [.opcodeNotRecognized
            (Uint16 (((15 :: [3, 0xfe, 0xff, 0xfe, 0x00, 0x31, 1, 0x1c, 2, 100, 0, 0, 3, 193] :
              List Byte).drop 5).take 2))] } ∧
    ∃ r0 r,
      ReadSmartbusRaw sampleCrc recordFrame [.byte 0x55] ([] ++ [.Lock, .Unlock]) [] =
        some r0 ∧
      ReadSmartbus sampleCrc optionMessages
        (.byte 0xaa :: .byte 0xaa ::
          ((15 :: [3, 0xfe, 0xff, 0xfe, 0x00, 0x31, 1, 0x1c, 2, 100, 0, 0, 3, 193] :
            List Byte).map Ev.byte ++ [.byte 0x55])) [] ⟨[], some [], [], false, false⟩ =
        some r ∧
      r.err = r0.err ∧ r.mutex = r0.mutex ∧ r.rest = r0.rest ∧
      r.handler.rawReadCh = (some [] : Option (List (List Byte))).map (fun q => q ++
        (15 :: [3, 0xfe, 0xff, 0xfe, 0x00, 0x31, 1, 0x1c, 2, 100, 0, 0, 3, 193]) ::
          r0.handler) ∧
      r.handler.panicked = false ∧ r.handler.closed = true ∧
      r.handler.ch.length + r.handler.errors.length =
        ([] : List (SmartbusMessage (Option (List Byte)))).length +
          ([] : List ParseError).length + 1 + r0.handler.length ∧
      ∀ (Obj2 : Type) (M2 : Messages Obj2) (c2 : Channels Obj2),
        c2.panicked = false → c2.rawReadCh = some [] →
        ∃ r2, ReadSmartbus sampleCrc M2
            (.byte 0xaa :: .byte 0xaa ::
              ((15 :: [3, 0xfe, 0xff, 0xfe, 0x00, 0x31, 1, 0x1c, 2, 100, 0, 0, 3, 193] :
                List Byte).map Ev.byte ++ [.byte 0x55])) [] c2 = some r2 ∧
          r2.err = r.err ∧ r2.mutex = r.mutex ∧ r2.rest = r.rest ∧
          r2.handler.rawReadCh = r.handler.rawReadCh) :=
  ⟨by decide, by decide, by decide, rfl, rfl,
    ReadSmartbus_unknown_opcode sampleCrc optionMessages 15
      [3, 0xfe, 0xff, 0xfe, 0x00, 0x31, 1, 0x1c, 2, 100, 0, 0, 3, 193] [.byte 0x55] []
      ⟨[], some [], [], false, false⟩ (by decide) (by decide) (by decide) rfl rfl⟩

end Smartbus
